import Mathlib

/-!
# Verification of the `mem` embedded memory store

A shallow embedding, in Lean 4, of the core of the `mem` repository
(an embedded memory store for rules / project docs / refs with vector
search), together with theorems settling the frozen claims C1..C10.

Modelling conventions:

* JS numbers are modelled as rationals (`ℚ`); values produced by square
  roots live in `ℝ`.  Machine-float rounding is modelled only where the
  code round-trips through the little-endian IEEE-754 binary32 storage
  format (`Buffer.writeFloatLE` / `readFloatLE`), which is embedded
  bit-precisely below.
* Timestamps (`Date.now()`, `new Date()`) are modelled as an explicit
  `now : ℕ` argument threaded through the operations.
* The SQL engine is modelled as in-memory lists of rows; query results
  stream rows in table order, matching the iteration order the spec
  describes for the scan.
* Fallible operations return `Except` / `Option`.
-/

/-! ## 1. Vector codec (`src/vector/operations.ts`)

`serializeEmbedding` writes each number with `Buffer.writeFloatLE` at
offsets 0, 4, 8, …; `deserializeEmbedding` reads `buffer.length / 4`
floats back with `readFloatLE`.  `writeFloatLE` rounds the (float64)
number to IEEE-754 binary32 and stores its four bytes little-endian;
we model that codec bit-precisely: `F32` is the field triple of a
binary32, `roundF32` is round-to-nearest-even, `decodeF32` is the value
map (`none` for the infinity/NaN exponent). -/

/-- Bit fields of an IEEE-754 binary32 value: sign bit, biased exponent
(8 bits) and fraction (23 bits). -/
structure F32 where
  sign : ℕ
  ex : ℕ
  frac : ℕ
deriving DecidableEq, Repr

/-- Wellformedness of the bit fields. -/
def F32.WF (x : F32) : Prop := x.sign < 2 ∧ x.ex < 256 ∧ x.frac < 2 ^ 23

instance (x : F32) : Decidable x.WF := by unfold F32.WF; infer_instance

/-- Round a nonnegative rational to the nearest natural, ties to even. -/
def rne (q : ℚ) : ℕ :=
  if q - ⌊q⌋.toNat < 1 / 2 then ⌊q⌋.toNat
  else if 1 / 2 < q - ⌊q⌋.toNat then ⌊q⌋.toNat + 1
  else if ⌊q⌋.toNat % 2 = 0 then ⌊q⌋.toNat else ⌊q⌋.toNat + 1

/-- Sign bit of a rational. -/
def f32sign (q : ℚ) : ℕ := if q < 0 then 1 else 0

/-- Round-to-nearest-even conversion of a rational to binary32 bit
fields, the model of the float32 rounding performed by
`Buffer.writeFloatLE`. -/
def roundF32 (q : ℚ) : F32 :=
  if q = 0 then ⟨0, 0, 0⟩
  else if Int.log 2 |q| < -126 then
    if 2 ^ 23 ≤ rne (|q| * 2 ^ (149 : ℕ)) then ⟨f32sign q, 1, 0⟩
    else ⟨f32sign q, 0, rne (|q| * 2 ^ (149 : ℕ))⟩
  else if 127 < Int.log 2 |q| then ⟨f32sign q, 255, 0⟩
  else if rne (|q| * (2 : ℚ) ^ (23 - Int.log 2 |q|)) = 2 ^ 24 then
    if Int.log 2 |q| = 127 then ⟨f32sign q, 255, 0⟩
    else ⟨f32sign q, (Int.log 2 |q| + 128).toNat, 0⟩
  else ⟨f32sign q, (Int.log 2 |q| + 127).toNat,
    rne (|q| * (2 : ℚ) ^ (23 - Int.log 2 |q|)) - 2 ^ 23⟩

/-- Value of a binary32 bit pattern as a rational; `none` for the
exponent field 255 (infinities and NaNs, which have no rational
value). -/
def decodeF32 (x : F32) : Option ℚ :=
  if x.ex = 255 then none
  else
    let sgn : ℚ := if x.sign = 1 then -1 else 1
    if x.ex = 0 then some (sgn * x.frac * (2 : ℚ) ^ (-149 : ℤ))
    else some (sgn * (2 ^ 23 + x.frac) * (2 : ℚ) ^ ((x.ex : ℤ) - 150))

/-- The float32 rounding of a rational, as a rational (`none` when the
value overflows to an infinity). -/
def f32Round (q : ℚ) : Option ℚ := decodeF32 (roundF32 q)

/-- Pack the bit fields into the 32-bit word of the binary32 format. -/
def f32bits (x : F32) : ℕ := x.sign * 2 ^ 31 + x.ex * 2 ^ 23 + x.frac

/-- Unpack a 32-bit word into binary32 bit fields. -/
def f32unbits (n : ℕ) : F32 := ⟨n / 2 ^ 31 % 2, n / 2 ^ 23 % 256, n % 2 ^ 23⟩

/-- Little-endian byte serialization of a 32-bit word. -/
def bytesLE4 (n : ℕ) : List ℕ :=
  [n % 256, n / 256 % 256, n / 65536 % 256, n / 16777216 % 256]

/-- Recover a 32-bit word from its four little-endian bytes. -/
def natFromLE4 (b0 b1 b2 b3 : ℕ) : ℕ := b0 + 256 * b1 + 65536 * b2 + 16777216 * b3

/-- Model of `Buffer.writeFloatLE`: the four little-endian bytes of the
binary32 rounding of the number. -/
def writeFloatLE (q : ℚ) : List ℕ := bytesLE4 (f32bits (roundF32 q))

/-- Model of `Buffer.readFloatLE` on a four-byte chunk. -/
def readFloatLE4 (b0 b1 b2 b3 : ℕ) : Option ℚ :=
  decodeF32 (f32unbits (natFromLE4 b0 b1 b2 b3))

/-- `VectorOperations.serializeEmbedding`: write each element with
`writeFloatLE` at consecutive 4-byte offsets. -/
def serializeEmbedding (v : List ℚ) : List ℕ := (v.map writeFloatLE).flatten

/-- `VectorOperations.deserializeEmbedding`: read `length / 4` floats
back at consecutive 4-byte offsets.  A trailing chunk shorter than four
bytes makes `readFloatLE` throw a `RangeError`, modelled as `none`. -/
def deserializeEmbedding : List ℕ → Option (List ℚ)
  | [] => some []
  | b0 :: b1 :: b2 :: b3 :: rest =>
      match readFloatLE4 b0 b1 b2 b3, deserializeEmbedding rest with
      | some q, some qs => some (q :: qs)
      | _, _ => none
  | _ => none

theorem rne_le_of_lt {q : ℚ} {n : ℕ} (hq : 0 ≤ q) (h : q < n) : rne q ≤ n := by
  have h2 : 0 < n := by
    rcases Nat.eq_zero_or_pos n with h0 | h0
    · exfalso; rw [h0] at h; push_cast at h; linarith
    · exact h0
  have hf : ⌊q⌋.toNat ≤ n - 1 := by
    have h1 : ⌊q⌋ < n := Int.floor_lt.mpr (by exact_mod_cast h)
    omega
  unfold rne
  split
  · omega
  · split
    · omega
    · split <;> omega

theorem roundF32_wf (q : ℚ) : (roundF32 q).WF := by
  have hslt : f32sign q < 2 := by unfold f32sign; split <;> norm_num
  unfold roundF32
  split
  · exact ⟨by norm_num, by norm_num, by norm_num⟩
  · rename_i hq0
    have ha0 : 0 < |q| := abs_pos.mpr hq0
    split
    · split
      · exact ⟨hslt, by norm_num, by norm_num⟩
      · rename_i hm
        exact ⟨hslt, by norm_num, by dsimp only; omega⟩
    · split
      · exact ⟨hslt, by norm_num, by norm_num⟩
      · rename_i he1 he2
        push_neg at he1 he2
        have haub : |q| < 2 ^ (Int.log 2 |q| + 1) :=
          Int.lt_zpow_succ_log_self (by norm_num) |q|
        have hmub : |q| * (2 : ℚ) ^ (23 - Int.log 2 |q|) < 2 ^ 24 := by
          have h2pos : (0 : ℚ) < (2 : ℚ) ^ (23 - Int.log 2 |q|) := zpow_pos (by norm_num) _
          calc |q| * (2 : ℚ) ^ (23 - Int.log 2 |q|)
              < 2 ^ (Int.log 2 |q| + 1) * 2 ^ (23 - Int.log 2 |q|) :=
                mul_lt_mul_of_pos_right haub h2pos
            _ = (2 : ℚ) ^ (Int.log 2 |q| + 1 + (23 - Int.log 2 |q|)) := by
                rw [← zpow_add₀ (by norm_num : (2 : ℚ) ≠ 0)]
            _ = (2 : ℚ) ^ (24 : ℤ) := by ring_nf
            _ = 2 ^ 24 := by norm_num
        have hm0 : (0 : ℚ) ≤ |q| * (2 : ℚ) ^ (23 - Int.log 2 |q|) :=
          le_of_lt (mul_pos ha0 (zpow_pos (by norm_num) _))
        have hmle : rne (|q| * (2 : ℚ) ^ (23 - Int.log 2 |q|)) ≤ 2 ^ 24 := by
          have := rne_le_of_lt hm0 (by exact_mod_cast hmub)
          simpa using this
        split
        · split
          · exact ⟨hslt, by norm_num, by norm_num⟩
          · refine ⟨hslt, by dsimp only; omega, by norm_num⟩
        · rename_i hne
          refine ⟨hslt, by dsimp only; omega, by dsimp only; omega⟩

theorem f32bits_lt (x : F32) (h : x.WF) : f32bits x < 2 ^ 32 := by
  obtain ⟨h1, h2, h3⟩ := h
  unfold f32bits
  have e1 : x.sign * 2 ^ 31 ≤ 1 * 2 ^ 31 := Nat.mul_le_mul_right _ (by omega)
  have e2 : x.ex * 2 ^ 23 ≤ 255 * 2 ^ 23 := Nat.mul_le_mul_right _ (by omega)
  omega

theorem f32unbits_f32bits (x : F32) (h : x.WF) : f32unbits (f32bits x) = x := by
  obtain ⟨h1, h2, h3⟩ := h
  cases x with
  | mk s e f =>
    simp only [F32.WF] at h1 h2 h3
    unfold f32unbits f32bits
    simp only [F32.mk.injEq]
    refine ⟨?_, ?_, ?_⟩ <;> omega

theorem natFromLE4_bytesLE4 (n : ℕ) (h : n < 2 ^ 32) :
    natFromLE4 (n % 256) (n / 256 % 256) (n / 65536 % 256) (n / 16777216 % 256) = n := by
  unfold natFromLE4
  omega

theorem writeFloatLE_reads_back (q : ℚ) :
    ∃ b0 b1 b2 b3, writeFloatLE q = [b0, b1, b2, b3] ∧
      readFloatLE4 b0 b1 b2 b3 = f32Round q := by
  have hwf := roundF32_wf q
  have hlt := f32bits_lt _ hwf
  refine ⟨_, _, _, _, rfl, ?_⟩
  unfold readFloatLE4 f32Round
  rw [natFromLE4_bytesLE4 _ hlt, f32unbits_f32bits _ hwf]

theorem serializeEmbedding_cons (q : ℚ) (v : List ℚ) :
    serializeEmbedding (q :: v) = writeFloatLE q ++ serializeEmbedding v := by
  simp [serializeEmbedding]

theorem serializeEmbedding_length (v : List ℚ) :
    (serializeEmbedding v).length = 4 * v.length := by
  induction v with
  | nil => simp [serializeEmbedding]
  | cons q v ih =>
      obtain ⟨b0, b1, b2, b3, hw, _⟩ := writeFloatLE_reads_back q
      rw [serializeEmbedding_cons, List.length_append, ih, hw]
      simp; omega

theorem deserialize_serialize (v : List ℚ) (h : ∀ q ∈ v, (f32Round q).isSome) :
    ∃ w, deserializeEmbedding (serializeEmbedding v) = some w ∧
      List.Forall₂ (fun q r => f32Round q = some r) v w := by
  induction v with
  | nil => exact ⟨[], rfl, List.Forall₂.nil⟩
  | cons q v ih =>
      obtain ⟨w, hw, hfa⟩ := ih (fun x hx => h x (List.mem_cons_of_mem _ hx))
      obtain ⟨b0, b1, b2, b3, hbytes, hread⟩ := writeFloatLE_reads_back q
      obtain ⟨r, hr⟩ := Option.isSome_iff_exists.mp (h q (List.mem_cons_self _ _))
      refine ⟨r :: w, ?_, List.Forall₂.cons hr hfa⟩
      rw [serializeEmbedding_cons, hbytes]
      show deserializeEmbedding (b0 :: b1 :: b2 :: b3 :: serializeEmbedding v) = _
      rw [deserializeEmbedding, hread, hr, hw]

/-- **C7.** `deserializeEmbedding ∘ serializeEmbedding` is the identity up
to float32 rounding: for a vector of finite numbers (whose float32
roundings do not overflow), the serialized buffer has exactly `4 × length`
bytes, and deserializing it yields a vector of the same length whose
elements are the float32 roundings of the originals. -/
theorem claim_C7_roundtrip (v : List ℚ) (h : ∀ q ∈ v, (f32Round q).isSome) :
    (serializeEmbedding v).length = 4 * v.length ∧
      ∃ w, deserializeEmbedding (serializeEmbedding v) = some w ∧
        w.length = v.length ∧
        List.Forall₂ (fun q r => f32Round q = some r) v w := by
  obtain ⟨w, hw, hfa⟩ := deserialize_serialize v h
  exact ⟨serializeEmbedding_length v, w, hw, (List.Forall₂.length_eq hfa).symm, hfa⟩

theorem roundF32_ex_ne_255 (q : ℚ) (h : Int.log 2 |q| < 127) : (roundF32 q).ex ≠ 255 := by
  unfold roundF32
  split_ifs <;> dsimp only <;> omega

theorem f32Round_isSome (q : ℚ) (h : Int.log 2 |q| < 127) : (f32Round q).isSome := by
  have hex := roundF32_ex_ne_255 q h
  unfold f32Round decodeF32
  split_ifs <;> simp_all

theorem log2_of_lt_two {q : ℚ} (h1 : 1 ≤ q) (h2 : q < 2) : Int.log 2 q = 0 := by
  rw [Int.log_of_one_le_right _ h1]
  have hf : ⌊q⌋₊ = 1 := by
    rw [Nat.floor_eq_iff (by linarith : (0:ℚ) ≤ q)]
    push_cast
    exact ⟨h1, by linarith⟩
  rw [hf, Nat.log_one_right]
  rfl

/-- Witness for C7 at the concrete vector `[1, -3/2, 0]`. -/
theorem claim_C7_roundtrip_witness :
    (∀ q ∈ ([1, -3/2, 0] : List ℚ), (f32Round q).isSome) ∧
      ((serializeEmbedding [1, -3/2, 0]).length = 4 * ([1, -3/2, 0] : List ℚ).length ∧
        ∃ w, deserializeEmbedding (serializeEmbedding [1, -3/2, 0]) = some w ∧
          w.length = ([1, -3/2, 0] : List ℚ).length ∧
          List.Forall₂ (fun q r => f32Round q = some r) [1, -3/2, 0] w) := by
  have h : ∀ q ∈ ([1, -3/2, 0] : List ℚ), (f32Round q).isSome := by
    intro q hq
    apply f32Round_isSome
    simp only [List.mem_cons, List.not_mem_nil, or_false] at hq
    rcases hq with h | h | h
    all_goals first
      | (rw [h]; rw [show |(1:ℚ)| = 1 from by norm_num, Int.log_one_right]; norm_num)
      | (rw [h]; rw [show |(-3/2:ℚ)| = 3/2 from by norm_num,
            log2_of_lt_two (by norm_num) (by norm_num)]; norm_num)
      | (rw [h]; simp)
  exact ⟨h, claim_C7_roundtrip [1, -3/2, 0] h⟩

/-! ## 2. Vector metrics (`src/vector/operations.ts`)

The accumulation loops of `cosineSimilarity` are modelled as exact
rational sums; the final `Math.sqrt` calls land in `ℝ`. -/

/-- Error taxonomy of the embedded operations (by behaviour, matching the
`Error` objects the source throws; `noSuchTable` is the SQL engine's own
error for a `FROM`/`UPDATE` target that does not exist). -/
inductive MemErr
  | dimensionMismatch (got expected : ℕ)
  | vectorMismatch (n m : ℕ)
  | unknownTable (t : String)
  | noSuchTable (t : String)
  | noSuchColumn (t : String)
  | badBlob
deriving DecidableEq, Repr

/-- The loop `for i: dotProduct += a[i] * b[i]`. -/
def dotQ (a b : List ℚ) : ℚ := ((a.zip b).map fun p => p.1 * p.2).sum

/-- The loop `for i: norm += a[i] * a[i]` (sum of squares, before the
final square root). -/
def sumSq (a : List ℚ) : ℚ := (a.map fun x => x * x).sum

/-- `VectorOperations.magnitude`: Euclidean norm. -/
noncomputable def magnitude (v : List ℚ) : ℝ := Real.sqrt ((sumSq v : ℚ) : ℝ)

open Classical in
/-- `VectorOperations.cosineSimilarity`: throws on length mismatch,
returns `0` if either norm is zero, otherwise the normalized dot
product. -/
noncomputable def cosineSimilarity (a b : List ℚ) : Except MemErr ℝ :=
  if a.length ≠ b.length then .error (.vectorMismatch a.length b.length)
  else if magnitude a = 0 ∨ magnitude b = 0 then .ok 0
  else .ok ((dotQ a b : ℝ) / (magnitude a * magnitude b))

theorem sumSq_nonneg (a : List ℚ) : 0 ≤ sumSq a := by
  unfold sumSq
  apply List.sum_nonneg
  intro x hx
  obtain ⟨y, _, rfl⟩ := List.mem_map.mp hx
  exact mul_self_nonneg y

theorem magnitude_eq_zero_iff (a : List ℚ) : magnitude a = 0 ↔ sumSq a = 0 := by
  unfold magnitude
  rw [Real.sqrt_eq_zero (by exact_mod_cast sumSq_nonneg a)]
  exact_mod_cast Iff.rfl

/-- **C8.** For equal-length vectors, if either Euclidean norm is zero,
`cosineSimilarity` returns exactly `0` (in particular it never divides
`0/0`, so no NaN arises). -/
theorem claim_C8_zero_norm_cosine (a b : List ℚ) (hlen : a.length = b.length)
    (h0 : magnitude a = 0 ∨ magnitude b = 0) :
    cosineSimilarity a b = .ok 0 := by
  unfold cosineSimilarity
  rw [if_neg (by omega), if_pos h0]

/-- Witness for C8 at `a = [0, 0]`, `b = [3, 4]`. -/
theorem claim_C8_zero_norm_cosine_witness :
    ([0, 0] : List ℚ).length = ([3, 4] : List ℚ).length ∧
      (magnitude [0, 0] = 0 ∨ magnitude [3, 4] = 0) ∧
      cosineSimilarity [0, 0] [3, 4] = .ok 0 := by
  have hm : magnitude ([0, 0] : List ℚ) = 0 := by
    rw [magnitude_eq_zero_iff]; simp [sumSq]
  exact ⟨rfl, Or.inl hm, claim_C8_zero_norm_cosine [0, 0] [3, 4] rfl (Or.inl hm)⟩

/-! ## 3. Database model and schema migrations (`src/database/migrations.ts`)

The SQL engine is modelled as in-memory tables.  A row's `embedding`
column holds the raw BLOB bytes (or NULL); timestamps are naturals. -/

structure RuleRow where
  id : String
  content : String
  embedding : Option (List ℕ)
  tags : String
  tier : ℤ
  metadata : Option String
  created_at : ℕ
  updated_at : ℕ
deriving DecidableEq, Repr

structure DocRow where
  id : String
  project_id : String
  title : String
  content : String
  file_path : Option String
  embedding : Option (List ℕ)
  tags : String
  metadata : Option String
  created_at : ℕ
  updated_at : ℕ
deriving DecidableEq, Repr

structure RefRow where
  id : String
  name : String
  content : String
  embedding : Option (List ℕ)
  channel_id : Option String
  metadata : Option String
  created_at : ℕ
  updated_at : ℕ
deriving DecidableEq, Repr

/-- The database file: the v1 schema objects plus table contents.
`initialized` records whether the four tables exist (the initial DDL
creates them together). -/
structure DB where
  initialized : Bool
  migrations : List (ℕ × String)
  rules : List RuleRow
  projectDocs : List DocRow
  refs : List RefRow
deriving DecidableEq, Repr

def DB.empty : DB := ⟨false, [], [], [], []⟩

def SCHEMA_VERSION : ℕ := 1

/-- `MigrationRunner.getCurrentVersion`: the first row of
`SELECT version … ORDER BY version DESC LIMIT 1` (the maximum version),
`0` on an empty table, and `0` when the table does not exist (that error
is caught and swallowed). -/
def getCurrentVersion (db : DB) : ℕ :=
  if db.initialized then (db.migrations.map Prod.fst).foldr max 0 else 0

/-- The v1 DDL (`INITIAL_SCHEMA`): `CREATE TABLE IF NOT EXISTS` for the
four tables plus indexes and triggers.  Existing tables keep their rows;
missing tables appear empty. -/
def applyInitialSchema (db : DB) : DB :=
  { initialized := true
    migrations := if db.initialized then db.migrations else []
    rules := if db.initialized then db.rules else []
    projectDocs := if db.initialized then db.projectDocs else []
    refs := if db.initialized then db.refs else [] }

/-- `MigrationRunner.initializeSchema`: when the current version is 0,
run the full v1 DDL and record `(SCHEMA_VERSION, "Initial schema")` in
one committed transaction; otherwise do nothing. -/
def initializeSchema (db : DB) : DB :=
  if getCurrentVersion db = 0 then
    { applyInitialSchema db with
      migrations := (applyInitialSchema db).migrations ++ [(SCHEMA_VERSION, "Initial schema")] }
  else db

theorem foldrMax_append (xs ys : List ℕ) :
    (xs ++ ys).foldr max 0 = max (xs.foldr max 0) (ys.foldr max 0) := by
  induction xs with
  | nil => simp
  | cons x xs ih => simp [ih, max_assoc]

theorem getCurrentVersion_initializeSchema (db : DB) (h : getCurrentVersion db = 0) :
    getCurrentVersion (initializeSchema db) = SCHEMA_VERSION := by
  unfold initializeSchema
  rw [if_pos h]
  unfold getCurrentVersion applyInitialSchema at *
  by_cases hi : db.initialized
  · simp only [hi, if_true, if_pos] at *
    rw [List.map_append, foldrMax_append, h]
    rfl
  · simp only [hi, if_false] at *
    rfl

/-- **C5.** Running `initializeSchema` twice leaves the database exactly
as running it once (and the second run is a no-op whenever the current
version is nonzero); afterwards, starting from a fresh database (version
0) or one this runner already initialized (version `SCHEMA_VERSION`),
`getCurrentVersion` equals `SCHEMA_VERSION`. -/
theorem claim_C5_initializeSchema_idempotent (db : DB) :
    initializeSchema (initializeSchema db) = initializeSchema db ∧
      (getCurrentVersion db ≠ 0 → initializeSchema db = db) ∧
      ((getCurrentVersion db = 0 ∨ getCurrentVersion db = SCHEMA_VERSION) →
        getCurrentVersion (initializeSchema db) = SCHEMA_VERSION) := by
  refine ⟨?_, ?_, ?_⟩
  · by_cases h : getCurrentVersion db = 0
    · have h2 := getCurrentVersion_initializeSchema db h
      unfold initializeSchema at h2 ⊢
      rw [if_pos h] at h2 ⊢
      rw [if_neg (by rw [h2]; unfold SCHEMA_VERSION; omega)]
    · unfold initializeSchema
      rw [if_neg h, if_neg h]
  · intro h
    unfold initializeSchema
    rw [if_neg h]
  · rintro (h | h)
    · exact getCurrentVersion_initializeSchema db h
    · unfold initializeSchema
      rw [if_neg (by rw [h]; unfold SCHEMA_VERSION; omega)]
      exact h

/-- Witness for C5 at the database obtained by initializing the empty
database once. -/
theorem claim_C5_initializeSchema_idempotent_witness :
    (getCurrentVersion (initializeSchema DB.empty) ≠ 0 ∧
        getCurrentVersion (initializeSchema DB.empty) = SCHEMA_VERSION) ∧
      initializeSchema (initializeSchema (initializeSchema DB.empty)) =
        initializeSchema (initializeSchema DB.empty) ∧
      initializeSchema (initializeSchema DB.empty) = initializeSchema DB.empty ∧
      getCurrentVersion (initializeSchema (initializeSchema DB.empty)) = SCHEMA_VERSION := by
  have hv : getCurrentVersion (initializeSchema DB.empty) = SCHEMA_VERSION :=
    getCurrentVersion_initializeSchema DB.empty (by decide)
  obtain ⟨h1, h2, h3⟩ := claim_C5_initializeSchema_idempotent (initializeSchema DB.empty)
  exact ⟨⟨by rw [hv]; decide, hv⟩, h1, h2 (by rw [hv]; decide), h3 (Or.inr hv)⟩

/-! ## 4. Row storage (`src/services/storage.ts`)

`RuleStorage.create` and `RuleStorage.update`, the sources of claim C2.
The clock (`new Date()`) is an explicit `now` argument; JSON
encoding/decoding of the tags array is modelled by a concrete codec
(tags are assumed quote-free, as the spec notes). -/

/-- A rule record as returned to callers. -/
structure Rule where
  id : String
  content : String
  tags : List String
  tier : ℤ
  metadata : Option String
  embedding : Option (List ℚ)
  created_at : ℕ
  updated_at : ℕ

/-- `JSON.stringify` on an array of (quote-free) tag strings. -/
def serializeTags (tags : List String) : String :=
  "[" ++ String.intercalate "," (tags.map fun t => "\"" ++ t ++ "\"") ++ "]"

/-- `JSON.parse` on the tags column (partial inverse of
`serializeTags`). -/
def parseTags (s : String) : List String :=
  if (s.drop 1).dropRight 1 = "" then []
  else (((s.drop 1).dropRight 1).splitOn ",").map fun t => (t.drop 1).dropRight 1

/-- The record a `SELECT *` row is mapped to (the mapping reads `id,
content, tags, tier, metadata, created_at, updated_at`; the embedding
column is not copied into the record). -/
def rowToRule (row : RuleRow) : Rule :=
  { id := row.id, content := row.content, tags := parseTags row.tags,
    tier := row.tier, metadata := row.metadata, embedding := none,
    created_at := row.created_at, updated_at := row.updated_at }

/-- The row the `INSERT` of `RuleStorage.create` writes: serialized
tags, serialized metadata, both timestamp columns `now`, and no
embedding column. -/
def Rule.toNewRow (r : Rule) (now : ℕ) : RuleRow :=
  { id := r.id, content := r.content, embedding := none,
    tags := serializeTags r.tags, tier := r.tier, metadata := r.metadata,
    created_at := now, updated_at := now }

/-- `RuleStorage.create`: inserts the row with both timestamp columns
set to `now` (the embedding column is not part of the INSERT) and
returns the input record with `created_at = updated_at = now`. -/
def RuleStorage.create (db : DB) (now : ℕ) (r : Rule) : DB × Rule :=
  ({ db with rules := db.rules ++ [r.toNewRow now] },
   { r with created_at := now, updated_at := now })

/-- `RuleStorage.findById`: first row with the id, mapped to a record. -/
def RuleStorage.findById (db : DB) (id : String) : Option Rule :=
  (db.rules.find? fun row => row.id = id).map rowToRule

/-- A `Partial<Rule>` update: absent fields keep the existing value. -/
structure RuleUpdate where
  content : Option String := none
  tags : Option (List String) := none
  tier : Option ℤ := none
  metadata : Option String := none
  embedding : Option (List ℚ) := none

/-- The merge `{ ...existing, ...updates, updated_at: new Date() }`. -/
def mergeRule (existing : Rule) (u : RuleUpdate) (now : ℕ) : Rule :=
  { existing with
    content := u.content.getD existing.content
    tags := u.tags.getD existing.tags
    tier := u.tier.getD existing.tier
    metadata := (match u.metadata with | some m => some m | none => existing.metadata)
    embedding := (match u.embedding with | some e => some e | none => existing.embedding)
    updated_at := now }

/-- The column writes of the `UPDATE rules SET … WHERE id = ?`
statement, applied to a matching row. -/
def RuleRow.applyUpdate (row : RuleRow) (merged : Rule) (now : ℕ) : RuleRow :=
  { row with
    content := merged.content
    tags := serializeTags merged.tags
    tier := merged.tier
    metadata := merged.metadata
    updated_at := now }

def RuleStorage.update (db : DB) (now : ℕ) (id : String) (u : RuleUpdate) :
    Option (DB × Rule) :=
  match RuleStorage.findById db id with
  | none => none
  | some existing =>
      some ({ db with rules := db.rules.map fun row =>
                if row.id = id then row.applyUpdate (mergeRule existing u now) now
                else row },
        mergeRule existing u now)

/-- A one-rule database whose row has `updated_at = 5`, for the C2
counterexample and witness. -/
def c2row : RuleRow :=
  { id := "r1", content := "c", embedding := none, tags := "[]",
    tier := 1, metadata := none, created_at := 5, updated_at := 5 }

def c2db : DB := ⟨true, [(1, "Initial schema")], [c2row], [], []⟩

/-- **C2 counterexample.** An update that runs in the same clock
millisecond as the prior write (`now = 5`, prior `updated_at = 5`)
succeeds but returns `updated_at = 5`, not a strictly greater value:
`new Date()` is not forced past the stored timestamp. -/
theorem claim_C2_counterexample :
    ((RuleStorage.findById c2db "r1").map Rule.updated_at = some 5 ∧
        ((RuleStorage.update c2db 5 "r1" {}).map fun p => p.2.updated_at) = some 5) ∧
      ¬ (5 : ℕ) > 5 :=
  ⟨⟨rfl, rfl⟩, by omega⟩

/-- **C2 (amended).** `create` always returns (and stores) a record with
`created_at = updated_at`; a successful `update` sets `updated_at` to
the update's clock value `now`, which is strictly greater than the prior
`updated_at` whenever the clock has advanced past it (`now` strictly
above the stored value) — equality is possible when the two writes fall
on the same clock value. -/
theorem claim_C2_timestamps (db : DB) (now : ℕ) (r : Rule) (id : String)
    (u : RuleUpdate) (existing : Rule)
    (hfound : RuleStorage.findById db id = some existing)
    (hclock : existing.updated_at < now) :
    ((RuleStorage.create db now r).2.created_at = (RuleStorage.create db now r).2.updated_at ∧
      ((RuleStorage.create db now r).1.rules.getLast?).map
          (fun row => (row.created_at, row.updated_at)) = some (now, now)) ∧
      ∃ db2 merged, RuleStorage.update db now id u = some (db2, merged) ∧
        existing.updated_at < merged.updated_at := by
  refine ⟨⟨rfl, ?_⟩, ?_⟩
  · show ((db.rules ++ [_]).getLast?).map _ = _
    rw [List.getLast?_concat]
    rfl
  · unfold RuleStorage.update
    rw [hfound]
    exact ⟨_, _, rfl, hclock⟩

def c2rule : Rule :=
  { id := "r2", content := "c2", tags := [], tier := 2, metadata := none,
    embedding := none, created_at := 0, updated_at := 0 }

/-- Witness for the amended C2 at `c2db` with an update whose clock value
6 lies strictly past the stored `updated_at = 5`. -/
theorem claim_C2_timestamps_witness :
    (RuleStorage.findById c2db "r1" = some (rowToRule c2row) ∧
        (rowToRule c2row).updated_at < 6) ∧
      (((RuleStorage.create c2db 6 c2rule).2.created_at =
          (RuleStorage.create c2db 6 c2rule).2.updated_at ∧
        ((RuleStorage.create c2db 6 c2rule).1.rules.getLast?).map
            (fun row => (row.created_at, row.updated_at)) = some (6, 6)) ∧
        ∃ db2 merged, RuleStorage.update c2db 6 "r1" {} = some (db2, merged) ∧
          (rowToRule c2row).updated_at < merged.updated_at) :=
  ⟨⟨rfl, by decide⟩,
    claim_C2_timestamps c2db 6 c2rule "r1" {} (rowToRule c2row) rfl (by decide)⟩

/-! ## 5. Vector index (`src/vector/index.ts`)

`storeEmbedding`, `getTableType` and `semanticSearch`, the sources of
claims C1 and C3. -/

inductive RType
  | rule
  | project_doc
  | ref
deriving DecidableEq, Repr

structure SearchResult where
  id : String
  content : String
  similarity_score : ℝ
  type : RType
  metadata : Option String

structure VectorSearchOptions where
  limit : Option ℕ := none
  threshold : Option ℚ := none
  includeMetadata : Option Bool := none

/-- `VectorOperations.validateDimensions`. -/
def validateDimensions (v : List ℚ) (expected : ℕ) : Except MemErr Unit :=
  if v.length ≠ expected then .error (.dimensionMismatch v.length expected) else .ok ()

def RuleRow.withBlob (row : RuleRow) (id : String) (blob : List ℕ) : RuleRow :=
  if row.id = id then { row with embedding := some blob } else row

def DocRow.withBlob (row : DocRow) (id : String) (blob : List ℕ) : DocRow :=
  if row.id = id then { row with embedding := some blob } else row

def RefRow.withBlob (row : RefRow) (id : String) (blob : List ℕ) : RefRow :=
  if row.id = id then { row with embedding := some blob } else row

/-- The SQL engine executing the interpolated
`UPDATE {table} SET embedding = ? WHERE id = ?`: the v1 schema has
exactly four tables; a target that is not one of them is the engine's
`no such table` error, and `schema_migrations` has no `embedding`
column. -/
def execUpdateEmbedding (db : DB) (table id : String) (blob : List ℕ) :
    Except MemErr DB :=
  if table = "rules" then
    .ok { db with rules := db.rules.map fun row => row.withBlob id blob }
  else if table = "project_docs" then
    .ok { db with projectDocs := db.projectDocs.map fun row => row.withBlob id blob }
  else if table = "refs" then
    .ok { db with refs := db.refs.map fun row => row.withBlob id blob }
  else if table = "schema_migrations" then .error (.noSuchColumn table)
  else .error (.noSuchTable table)

/-- `VectorIndex.storeEmbedding`: dimension-check the vector, serialize
it, and execute the interpolated UPDATE.  There is no table-name check
of its own. -/
def storeEmbedding (dims : ℕ) (db : DB) (table id : String) (v : List ℚ) :
    Except MemErr DB :=
  match validateDimensions v dims with
  | .error e => .error e
  | .ok _ => execUpdateEmbedding db table id (serializeEmbedding v)

/-- `VectorIndex.getTableType`: the only place the `Unknown table type`
error is raised (used by `searchInTable`, not by `storeEmbedding`). -/
def getTableType (table : String) : Except MemErr RType :=
  if table = "rules" then .ok .rule
  else if table = "project_docs" then .ok .project_doc
  else if table = "refs" then .ok .ref
  else .error (.unknownTable table)

/-- **C1 counterexample.** On a non-allowlisted table name,
`storeEmbedding` of a correctly-dimensioned vector does not fail with
the `UnknownTable` error the claim requires: it reaches the interpolated
UPDATE, which surfaces the SQL engine's own `no such table` error. -/
theorem claim_C1_counterexample :
    storeEmbedding 2 c2db "bogus" "r1" [1, 2] = .error (.noSuchTable "bogus") ∧
      storeEmbedding 2 c2db "bogus" "r1" [1, 2] ≠ .error (.unknownTable "bogus") :=
  ⟨rfl, by simp [storeEmbedding, validateDimensions, execUpdateEmbedding]⟩

/-- **C1 (amended).** `storeEmbedding` performs no table-name allowlist
check.  For a correctly-dimensioned vector it always reaches the
interpolated UPDATE: on the three row tables it sets the matching rows'
embedding column to the serialized vector; on any other table name the
SQL engine's own error surfaces (`no such table`, or `no such column`
for `schema_migrations`); a wrongly-dimensioned vector fails the
dimension check first, whatever the table.  The `UnknownTable` error is
never produced by `storeEmbedding` — only `getTableType` (hence
`searchInTable`) raises it. -/
theorem claim_C1_storeEmbedding_no_allowlist (dims : ℕ) (db : DB) (table id : String)
    (v : List ℚ) (hdim : v.length = dims) :
    (table = "rules" → storeEmbedding dims db table id v =
        .ok { db with rules := db.rules.map fun row =>
                row.withBlob id (serializeEmbedding v) }) ∧
      (table ∉ (["rules", "project_docs", "refs", "schema_migrations"] : List String) →
        storeEmbedding dims db table id v = .error (.noSuchTable table)) ∧
      (∀ w : List ℚ, ∀ t, storeEmbedding dims db table id w ≠ .error (.unknownTable t)) := by
  have hok : validateDimensions v dims = .ok () := by
    unfold validateDimensions
    rw [if_neg (by omega)]
  refine ⟨?_, ?_, ?_⟩
  · intro ht
    subst ht
    unfold storeEmbedding
    rw [hok]
    unfold execUpdateEmbedding
    rw [if_pos rfl]
  · intro ht
    simp only [List.mem_cons, List.not_mem_nil, or_false, not_or] at ht
    obtain ⟨h1, h2, h3, h4⟩ := ht
    unfold storeEmbedding
    rw [hok]
    unfold execUpdateEmbedding
    rw [if_neg h1, if_neg h2, if_neg h3, if_neg h4]
  · intro w t
    unfold storeEmbedding
    cases hvd : validateDimensions w dims with
    | error e =>
        dsimp only
        unfold validateDimensions at hvd
        split at hvd
        · injection hvd with h
          subst h
          simp
        · simp at hvd
    | ok u =>
        dsimp only
        unfold execUpdateEmbedding
        split_ifs <;> simp

/-- Witness for C1: for a correctly-dimensioned vector, the allowlisted
table `rules` gets its UPDATE, while the unknown table `bogus` surfaces
the engine error, not `UnknownTable`. -/
theorem claim_C1_storeEmbedding_no_allowlist_witness :
    ([1, 2] : List ℚ).length = 2 ∧
      storeEmbedding 2 c2db "rules" "r1" [1, 2] =
        .ok { c2db with rules := c2db.rules.map fun row =>
                row.withBlob "r1" (serializeEmbedding [1, 2]) } ∧
      storeEmbedding 2 c2db "bogus" "r1" [1, 2] = .error (.noSuchTable "bogus") ∧
      storeEmbedding 2 c2db "bogus" "r1" [1, 2] ≠ .error (.unknownTable "bogus") :=
  ⟨rfl,
    (claim_C1_storeEmbedding_no_allowlist 2 c2db "rules" "r1" [1, 2] rfl).1 rfl,
    (claim_C1_storeEmbedding_no_allowlist 2 c2db "bogus" "r1" [1, 2] rfl).2.1 (by decide),
    (claim_C1_storeEmbedding_no_allowlist 2 c2db "bogus" "r1" [1, 2] rfl).2.2 [1, 2] "bogus"⟩

/-! ### Semantic search (`VectorIndex.semanticSearch`) -/

theorem deserializeEmbedding_length :
    ∀ bs es, deserializeEmbedding bs = some es → bs.length = 4 * es.length
  | [], es, h => by
      simp only [deserializeEmbedding] at h
      cases h
      simp
  | [b0], es, h => by
      simp only [deserializeEmbedding] at h
      exact Option.noConfusion h
  | [b0, b1], es, h => by
      simp only [deserializeEmbedding] at h
      exact Option.noConfusion h
  | [b0, b1, b2], es, h => by
      simp only [deserializeEmbedding] at h
      exact Option.noConfusion h
  | b0 :: b1 :: b2 :: b3 :: rest, es, h => by
      simp only [deserializeEmbedding] at h
      cases hr : readFloatLE4 b0 b1 b2 b3 with
      | none => rw [hr] at h; simp at h
      | some q =>
          rw [hr] at h
          cases hd : deserializeEmbedding rest with
          | none => rw [hd] at h; simp at h
          | some qs =>
              rw [hd] at h
              simp only [Option.some.injEq] at h
              have ih := deserializeEmbedding_length rest qs hd
              subst h
              simp only [List.length_cons]
              omega

/-- A streamed row of `SELECT id, content, embedding, metadata FROM t
WHERE embedding IS NOT NULL`. -/
structure ScanRow where
  id : String
  content : String
  blob : List ℕ
  metadata : Option String

/-- The rows the three table scans of `semanticSearch` stream, in the
code's table order (rules, project_docs, refs), each table in row
order, restricted to rows whose embedding is non-NULL. -/
def DB.scanRows (db : DB) : List (ScanRow × RType) :=
  (db.rules.filterMap fun r =>
    r.embedding.map fun b => (ScanRow.mk r.id r.content b r.metadata, RType.rule)) ++
  (db.projectDocs.filterMap fun d =>
    d.embedding.map fun b => (ScanRow.mk d.id d.content b d.metadata, RType.project_doc)) ++
  (db.refs.filterMap fun r =>
    r.embedding.map fun b => (ScanRow.mk r.id r.content b r.metadata, RType.ref))

/-- A stored embedding column is either NULL or a well-formed blob of
exactly `4 × dims` bytes that deserializes. -/
def blobOK (dims : ℕ) : Option (List ℕ) → Prop
  | none => True
  | some b => b.length = 4 * dims ∧ (deserializeEmbedding b).isSome

instance instDecidableBlobOK (dims : ℕ) : ∀ o, Decidable (blobOK dims o)
  | none => .isTrue trivial
  | some _ => inferInstanceAs (Decidable (_ ∧ _))

/-- The data-model invariant: every row either has no embedding or a
blob of exactly `dimensions` float32 values. -/
def DB.WellFormedEmb (dims : ℕ) (db : DB) : Prop :=
  (∀ r ∈ db.rules, blobOK dims r.embedding) ∧
    (∀ d ∈ db.projectDocs, blobOK dims d.embedding) ∧
    (∀ r ∈ db.refs, blobOK dims r.embedding)

instance (dims : ℕ) (db : DB) : Decidable (db.WellFormedEmb dims) := by
  unfold DB.WellFormedEmb
  infer_instance

theorem scanRows_blobOK (dims : ℕ) (db : DB) (h : db.WellFormedEmb dims) :
    ∀ p ∈ db.scanRows, p.1.blob.length = 4 * dims ∧
      (deserializeEmbedding p.1.blob).isSome := by
  obtain ⟨h1, h2, h3⟩ := h
  rintro ⟨row, ty⟩ hp
  unfold DB.scanRows at hp
  rcases List.mem_append.mp hp with hp | hp3
  · rcases List.mem_append.mp hp with hp1 | hp2
    · obtain ⟨r, hr, hmk⟩ := List.mem_filterMap.mp hp1
      obtain ⟨b, hb, hbmk⟩ := Option.map_eq_some.mp hmk
      cases hbmk
      have := h1 r hr
      rw [hb] at this
      exact this
    · obtain ⟨d, hd, hmk⟩ := List.mem_filterMap.mp hp2
      obtain ⟨b, hb, hbmk⟩ := Option.map_eq_some.mp hmk
      cases hbmk
      have := h2 d hd
      rw [hb] at this
      exact this
  · obtain ⟨r, hr, hmk⟩ := List.mem_filterMap.mp hp3
    obtain ⟨b, hb, hbmk⟩ := Option.map_eq_some.mp hmk
    cases hbmk
    have := h3 r hr
    rw [hb] at this
    exact this

theorem cosineSimilarity_isOk (a b : List ℚ) (h : a.length = b.length) :
    ∃ s, cosineSimilarity a b = .ok s := by
  unfold cosineSimilarity
  rw [if_neg (by omega)]
  split_ifs <;> exact ⟨_, rfl⟩

/-- The body of the scan loop of `semanticSearch`: deserialize the blob,
compute the cosine similarity against the query, and emit a result when
it meets the threshold (an `Except` because the deserialization or the
similarity computation can throw). -/
noncomputable def collectCandidates (q : List ℚ) (th : ℚ) (includeMeta : Bool) :
    List (ScanRow × RType) → Except MemErr (List SearchResult)
  | [] => .ok []
  | (row, ty) :: rest =>
      match deserializeEmbedding row.blob with
      | none => .error .badBlob
      | some emb =>
          match cosineSimilarity q emb with
          | .error e => .error e
          | .ok sim =>
              match collectCandidates q th includeMeta rest with
              | .error e => .error e
              | .ok results =>
                  if (th : ℝ) ≤ sim then
                    .ok (SearchResult.mk row.id row.content sim ty
                      (if includeMeta then row.metadata else none) :: results)
                  else .ok results

/-- The candidate list the scan produces on a well-formed database: the
scanned rows, in scan order, whose cosine similarity with the query
meets the threshold. -/
noncomputable def candList (q : List ℚ) (th : ℚ) (includeMeta : Bool)
    (scan : List (ScanRow × RType)) : List SearchResult :=
  scan.filterMap fun p =>
    match deserializeEmbedding p.1.blob with
    | none => none
    | some emb =>
        match cosineSimilarity q emb with
        | .error _ => none
        | .ok sim =>
            if (th : ℝ) ≤ sim then
              some (SearchResult.mk p.1.id p.1.content sim p.2
                (if includeMeta then p.1.metadata else none))
            else none

theorem collectCandidates_ok (q : List ℚ) (th : ℚ) (im : Bool) :
    ∀ scan : List (ScanRow × RType),
      (∀ p ∈ scan, ∃ emb, deserializeEmbedding p.1.blob = some emb ∧
        emb.length = q.length) →
      collectCandidates q th im scan = .ok (candList q th im scan) := by
  intro scan
  induction scan with
  | nil => intro _; rfl
  | cons p rest ih =>
      intro hs
      obtain ⟨row, ty⟩ := p
      obtain ⟨emb, hemb, hlen⟩ := hs _ (List.mem_cons_self _ _)
      obtain ⟨sim, hsim⟩ := cosineSimilarity_isOk q emb hlen.symm
      have hrest := ih fun p hp => hs p (List.mem_cons_of_mem _ hp)
      unfold collectCandidates
      rw [hemb]
      dsimp only
      rw [hsim]
      dsimp only
      rw [hrest]
      unfold candList
      rw [List.filterMap_cons]
      dsimp only
      rw [hemb]
      dsimp only
      rw [hsim]
      dsimp only
      split_ifs <;> rfl

/-- The ordering the comparator `(a, b) => b.similarity_score -
a.similarity_score` induces on index-tagged results under a stable sort:
similarity descending, ties by original position. -/
def simLexLE (a b : ℕ × SearchResult) : Prop :=
  b.2.similarity_score < a.2.similarity_score ∨
    (a.2.similarity_score = b.2.similarity_score ∧ a.1 ≤ b.1)

open Classical in
noncomputable def simLexBool (a b : ℕ × SearchResult) : Bool := decide (simLexLE a b)

theorem simLexBool_trans (a b c : ℕ × SearchResult) (h1 : simLexBool a b)
    (h2 : simLexBool b c) : simLexBool a c := by
  simp only [simLexBool, decide_eq_true_eq, simLexLE] at *
  rcases h1 with h1 | ⟨h1, h1i⟩ <;> rcases h2 with h2 | ⟨h2, h2i⟩
  · exact Or.inl (lt_trans h2 h1)
  · exact Or.inl (h2 ▸ h1)
  · exact Or.inl (h1 ▸ h2)
  · exact Or.inr ⟨h1.trans h2, h1i.trans h2i⟩

theorem simLexBool_total (a b : ℕ × SearchResult) :
    (simLexBool a b || simLexBool b a) = true := by
  simp only [simLexBool, Bool.or_eq_true, decide_eq_true_eq, simLexLE]
  rcases lt_trichotomy a.2.similarity_score b.2.similarity_score with h | h | h
  · exact Or.inr (Or.inl h)
  · rcases Nat.le_total a.1 b.1 with hi | hi
    · exact Or.inl (Or.inr ⟨h, hi⟩)
    · exact Or.inr (Or.inr ⟨h.symm, hi⟩)
  · exact Or.inl (Or.inl h)

/-- The `results.sort((a, b) => b.similarity_score - a.similarity_score)`
call.  ES2019 `Array.prototype.sort` is required to be stable, and a
stable sort by a comparator equals the sort by the lexicographic order
(comparator first, original index second): elements are tagged with
their index, merge-sorted by `simLexBool`, and untagged. -/
noncomputable def jsSortBySimDesc (l : List SearchResult) : List SearchResult :=
  (l.enum.mergeSort simLexBool).map Prod.snd

/-- `VectorIndex.semanticSearch`: validate the query dimensions, scan
the three tables for candidates meeting the threshold, sort by
similarity descending (stable) and return the first `limit` results.
Defaults: `limit = 10`, `threshold = 0.7`, `includeMetadata = true`. -/
noncomputable def semanticSearch (dims : ℕ) (db : DB) (q : List ℚ)
    (opts : VectorSearchOptions) : Except MemErr (List SearchResult) :=
  match validateDimensions q dims with
  | .error e => .error e
  | .ok _ =>
      match collectCandidates q (opts.threshold.getD (7/10))
          (opts.includeMetadata.getD true) db.scanRows with
      | .error e => .error e
      | .ok results => .ok ((jsSortBySimDesc results).take (opts.limit.getD 10))

/-- **C3.** On a well-formed database, for a query of the configured
dimensions, `semanticSearch` succeeds and returns exactly the first
`limit` elements of a ranking of the candidate list (the scanned rows in
table order rules, project_docs, refs, then row order, restricted to
cosine similarity ≥ threshold): the ranking is a permutation of the
index-tagged candidates, sorted by similarity descending with ties in
candidate (iteration) order, and its membership is exactly the
candidates. -/
theorem claim_C3_semanticSearch_ranking (dims : ℕ) (db : DB) (q : List ℚ)
    (opts : VectorSearchOptions) (hq : q.length = dims)
    (hdb : db.WellFormedEmb dims) :
    ∃ ranked : List (ℕ × SearchResult),
      ranked.Perm (candList q (opts.threshold.getD (7/10))
        (opts.includeMetadata.getD true) db.scanRows).enum ∧
      ranked.Pairwise simLexLE ∧
      (ranked.map Prod.snd).Pairwise
        (fun x y => y.similarity_score ≤ x.similarity_score) ∧
      (∀ r, r ∈ ranked.map Prod.snd ↔ r ∈ candList q (opts.threshold.getD (7/10))
        (opts.includeMetadata.getD true) db.scanRows) ∧
      semanticSearch dims db q opts =
        .ok ((ranked.map Prod.snd).take (opts.limit.getD 10)) := by
  set th := opts.threshold.getD (7/10) with hth
  set im := opts.includeMetadata.getD true with him
  set cands := candList q th im db.scanRows with hcands
  refine ⟨cands.enum.mergeSort simLexBool, List.mergeSort_perm _ _, ?_, ?_, ?_, ?_⟩
  · have hs := @List.sorted_mergeSort _ simLexBool simLexBool_trans simLexBool_total
      cands.enum
    exact List.Pairwise.imp (fun h => by simpa [simLexBool] using h) hs
  · have hs := @List.sorted_mergeSort _ simLexBool simLexBool_trans simLexBool_total
      cands.enum
    refine List.Pairwise.map Prod.snd ?_ hs
    intro a b hab
    simp only [simLexBool, decide_eq_true_eq, simLexLE] at hab
    rcases hab with h | ⟨h, _⟩
    · exact le_of_lt h
    · exact le_of_eq h.symm
  · intro r
    rw [List.Perm.mem_iff ((List.mergeSort_perm cands.enum simLexBool).map Prod.snd)]
    rw [List.enum_map_snd]
  · unfold semanticSearch
    have hv : validateDimensions q dims = .ok () := by
      unfold validateDimensions
      rw [if_neg (by omega)]
    rw [hv]
    dsimp only
    have hc : collectCandidates q th im db.scanRows = .ok cands := by
      apply collectCandidates_ok
      intro p hp
      obtain ⟨hlen, hsome⟩ := scanRows_blobOK dims db hdb p hp
      obtain ⟨emb, hemb⟩ := Option.isSome_iff_exists.mp hsome
      refine ⟨emb, hemb, ?_⟩
      have := deserializeEmbedding_length _ _ hemb
      omega
    rw [hc]
    rfl

/-- A database holding one rule embedded as float32 `[1.0, 0.0]` (bytes
little-endian), for the C3 witness. -/
def c3row : RuleRow :=
  { id := "r1", content := "hello", embedding := some [0, 0, 128, 63, 0, 0, 0, 0],
    tags := "[]", tier := 1, metadata := none, created_at := 0, updated_at := 0 }

def c3db : DB := ⟨true, [(1, "Initial schema")], [c3row], [], []⟩

/-- Witness for C3 at a two-dimensional index holding one embedded rule,
queried with `[1, 0]` and default options. -/
theorem claim_C3_semanticSearch_ranking_witness :
    (([1, 0] : List ℚ).length = 2 ∧ c3db.WellFormedEmb 2) ∧
      (∃ ranked : List (ℕ × SearchResult),
        ranked.Perm (candList [1, 0] ((VectorSearchOptions.mk none none none).threshold.getD (7/10))
          ((VectorSearchOptions.mk none none none).includeMetadata.getD true) c3db.scanRows).enum ∧
        ranked.Pairwise simLexLE ∧
        (ranked.map Prod.snd).Pairwise
          (fun x y => y.similarity_score ≤ x.similarity_score) ∧
        (∀ r, r ∈ ranked.map Prod.snd ↔
          r ∈ candList [1, 0] ((VectorSearchOptions.mk none none none).threshold.getD (7/10))
            ((VectorSearchOptions.mk none none none).includeMetadata.getD true) c3db.scanRows) ∧
        semanticSearch 2 c3db [1, 0] (VectorSearchOptions.mk none none none) =
          .ok ((ranked.map Prod.snd).take
            ((VectorSearchOptions.mk none none none).limit.getD 10))) :=
  ⟨⟨rfl, by decide⟩,
    claim_C3_semanticSearch_ranking 2 c3db [1, 0] (VectorSearchOptions.mk none none none)
      rfl (by decide)⟩

/-! ## 6. Connection pool (`src/database/pool.ts`)

The pool state is abstracted to connection counts plus the FIFO waiter
queue (`waitingQueue`, identified by waiter ids).  Each public entry
point of the pool becomes an atomic transition.  `getConnection` has a
catch block around `createConnection`: when creation fails the caller
falls through to the waiter queue even though the pool is below
capacity; that code path is the `enqueueCreateFailed` transition,
enabled by the `createFails` flag (executions with `createFails =
false` are the ones in which every `connect()` succeeds). -/

structure PoolState where
  total : ℕ
  active : ℕ
  idle : ℕ
  queue : List ℕ
  shuttingDown : Bool
deriving DecidableEq, Repr

def PoolState.init : PoolState := ⟨0, 0, 0, [], false⟩

/-- `releaseConnection`: a release of a non-active connection only warns;
otherwise, if a waiter is queued, the connection is handed to the head
of the queue and stays active; otherwise it returns to the idle set. -/
def releaseConnection (s : PoolState) : PoolState :=
  if s.active = 0 then s
  else
    match s.queue with
    | _ :: rest => { s with queue := rest }
    | [] => { s with active := s.active - 1, idle := s.idle + 1 }

/-- The waiter `releaseConnection` hands the connection to, if any. -/
def releaseServed (s : PoolState) : Option ℕ :=
  if s.active = 0 then none else s.queue.head?

/-- `getConnection` enqueueing a waiter (`waitingQueue.push`): appends at
the tail. -/
def enqueueWaiter (s : PoolState) (w : ℕ) : PoolState :=
  { s with queue := s.queue ++ [w] }

/-- The atomic transitions of the pool, one per code path:
checkout of an idle connection (healthy, or unhealthy and closed),
creation of a fresh connection during checkout, pre-creation during
`initialize`, enqueueing a waiter when the pool is saturated,
enqueueing a waiter below capacity after `createConnection` threw (the
catch block of `getConnection` falls through to the waiter queue —
enabled only when `createFails` is true), a waiter timing out (it
removes itself from anywhere in the queue), a release, the idle reaper,
and shutdown. -/
inductive PoolStep (max : ℕ) (createFails : Bool) : PoolState → PoolState → Prop
  | acquireIdle (s : PoolState) (h : ¬s.shuttingDown) (hi : 0 < s.idle) :
      PoolStep max createFails s { s with idle := s.idle - 1, active := s.active + 1 }
  | acquireIdleUnhealthy (s : PoolState) (h : ¬s.shuttingDown) (hi : 0 < s.idle) :
      PoolStep max createFails s { s with idle := s.idle - 1, total := s.total - 1 }
  | createFresh (s : PoolState) (h : ¬s.shuttingDown) (hi : s.idle = 0)
      (ht : s.total < max) :
      PoolStep max createFails s { s with total := s.total + 1, active := s.active + 1 }
  | precreate (s : PoolState) (h : ¬s.shuttingDown) (ht : s.total < max) :
      PoolStep max createFails s { s with total := s.total + 1, idle := s.idle + 1 }
  | enqueue (s : PoolState) (w : ℕ) (h : ¬s.shuttingDown) (hi : s.idle = 0)
      (ht : max ≤ s.total) :
      PoolStep max createFails s (enqueueWaiter s w)
  | enqueueCreateFailed (s : PoolState) (w : ℕ) (h : ¬s.shuttingDown) (hi : s.idle = 0)
      (ht : s.total < max) (hf : createFails = true) :
      PoolStep max createFails s (enqueueWaiter s w)
  | timeoutWaiter (s : PoolState) (pre post : List ℕ) (w : ℕ)
      (hq : s.queue = pre ++ w :: post) :
      PoolStep max createFails s { s with queue := pre ++ post }
  | release (s : PoolState) (ha : 0 < s.active) :
      PoolStep max createFails s (releaseConnection s)
  | reap (s : PoolState) (h : ¬s.shuttingDown) (hi : 2 < s.idle) :
      PoolStep max createFails s { s with idle := 2, total := s.total - (s.idle - 2) }
  | shutdown (s : PoolState) :
      PoolStep max createFails s ⟨0, 0, 0, [], true⟩

/-- States reachable from the freshly constructed pool.  With
`createFails := true` this is the full semantics; with `false` it is
the executions in which every connection creation succeeds. -/
def PoolReachable (max : ℕ) (createFails : Bool) (s : PoolState) : Prop :=
  Relation.ReflTransGen (PoolStep max createFails) PoolState.init s

/-- The count invariant, inductive for the full semantics (creation
failures included): the counts balance and stay within capacity. -/
def PoolInv1 (max : ℕ) (s : PoolState) : Prop :=
  s.active + s.idle = s.total ∧ s.total ≤ max

/-- The full inductive invariant, which additionally ties a nonempty
waiter queue to saturation; inductive only for failure-free
executions. -/
def PoolInv (max : ℕ) (s : PoolState) : Prop :=
  s.active + s.idle = s.total ∧ s.total ≤ max ∧ (s.queue ≠ [] → s.active = max)

theorem poolInv_init (max : ℕ) : PoolInv max PoolState.init :=
  ⟨rfl, Nat.zero_le _, fun h => absurd rfl h⟩

theorem releaseConnection_inv1 (max : ℕ) (s : PoolState) (hs : PoolInv1 max s)
    (ha : 0 < s.active) : PoolInv1 max (releaseConnection s) := by
  obtain ⟨hsum, hmax⟩ := hs
  unfold releaseConnection
  rw [if_neg (by omega)]
  cases hq2 : s.queue with
  | cons w rest => exact ⟨hsum, hmax⟩
  | nil => exact ⟨by dsimp only; omega, hmax⟩

theorem poolInv1_step (max : ℕ) (b : Bool) (s t : PoolState) (hs : PoolInv1 max s)
    (hst : PoolStep max b s t) : PoolInv1 max t := by
  obtain ⟨hsum, hmax⟩ := hs
  cases hst with
  | acquireIdle h hi => exact ⟨by dsimp only; omega, by dsimp only; omega⟩
  | acquireIdleUnhealthy h hi => exact ⟨by dsimp only; omega, by dsimp only; omega⟩
  | createFresh h hi ht => exact ⟨by dsimp only; omega, by dsimp only; omega⟩
  | precreate h ht => exact ⟨by dsimp only; omega, by dsimp only; omega⟩
  | enqueue w h hi ht =>
      unfold enqueueWaiter
      exact ⟨hsum, hmax⟩
  | enqueueCreateFailed w h hi ht hf =>
      unfold enqueueWaiter
      exact ⟨hsum, hmax⟩
  | timeoutWaiter pre post w hvq => exact ⟨hsum, hmax⟩
  | release ha => exact releaseConnection_inv1 max _ ⟨hsum, hmax⟩ ha
  | reap h hi => exact ⟨by dsimp only; omega, by dsimp only; omega⟩
  | shutdown => exact ⟨rfl, Nat.zero_le _⟩

theorem releaseConnection_inv (max : ℕ) (s : PoolState) (hs : PoolInv max s)
    (ha : 0 < s.active) : PoolInv max (releaseConnection s) := by
  obtain ⟨hsum, hmax, hq⟩ := hs
  unfold releaseConnection
  rw [if_neg (by omega)]
  cases hq2 : s.queue with
  | cons w rest =>
      refine ⟨hsum, hmax, fun hne => ?_⟩
      exact hq (by rw [hq2]; intro hc; exact List.noConfusion hc)
  | nil =>
      exact ⟨by dsimp only; omega, hmax, fun hne => absurd rfl hne⟩

theorem poolInv_step (max : ℕ) (s t : PoolState) (hs : PoolInv max s)
    (hst : PoolStep max false s t) : PoolInv max t := by
  obtain ⟨hsum, hmax, hq⟩ := hs
  cases hst with
  | acquireIdle h hi =>
      refine ⟨by dsimp only; omega, by dsimp only; omega, fun hne => ?_⟩
      have ha := hq hne
      dsimp only at *
      omega
  | acquireIdleUnhealthy h hi =>
      refine ⟨by dsimp only; omega, by dsimp only; omega, fun hne => ?_⟩
      have ha := hq hne
      dsimp only at *
      omega
  | createFresh h hi ht =>
      refine ⟨by dsimp only; omega, by dsimp only; omega, fun hne => ?_⟩
      have ha := hq hne
      dsimp only at *
      omega
  | precreate h ht =>
      refine ⟨by dsimp only; omega, by dsimp only; omega, fun hne => ?_⟩
      have ha := hq hne
      dsimp only at *
      omega
  | enqueue w h hi ht =>
      refine ⟨hsum, hmax, fun _ => ?_⟩
      unfold enqueueWaiter
      dsimp only
      omega
  | enqueueCreateFailed w h hi ht hf =>
      exact Bool.noConfusion hf
  | timeoutWaiter pre post w hvq =>
      refine ⟨hsum, hmax, fun hne => hq ?_⟩
      rw [hvq]
      intro hc
      rcases List.append_eq_nil.mp hc with ⟨h1, h2⟩
      exact List.noConfusion h2
  | release ha =>
      exact releaseConnection_inv max _ ⟨hsum, hmax, hq⟩ ha
  | reap h hi =>
      refine ⟨by dsimp only; omega, by dsimp only; omega, fun hne => ?_⟩
      have ha := hq hne
      dsimp only at *
      omega
  | shutdown =>
      exact ⟨rfl, Nat.zero_le _, fun h => absurd rfl h⟩

/-- **C4 counterexample.** When `createConnection` throws during
checkout, `getConnection`'s catch block falls through to the waiter
queue while the pool is below capacity: from the fresh pool with
`maxConnections = 10`, one such step reaches a state with a waiting
request and `active = 0 ≠ 10`, falsifying the claimed invariant
`waitingRequests > 0 → active = maxConnections`. -/
theorem claim_C4_counterexample :
    PoolReachable 10 true (PoolState.mk 0 0 0 [7] false) ∧
      0 < (PoolState.mk 0 0 0 [7] false).queue.length ∧
      ¬ (PoolState.mk 0 0 0 [7] false).active = 10 :=
  ⟨Relation.ReflTransGen.single
      (PoolStep.enqueueCreateFailed PoolState.init 7 (by decide) rfl (by decide) rfl),
    by decide, by decide⟩

/-- **C4 (amended).** In every reachable pool state — connection-creation
failures included — `active + idle ≤ total ≤ maxConnections`.  The
saturation property `waitingRequests > 0 → active = maxConnections`
holds in every state of a failure-free execution (one in which each
`connect()` succeeds); it is not an invariant of the full system,
because a failed creation during checkout enqueues the caller as a
waiter while the pool is below capacity. -/
theorem claim_C4_pool_invariants (max : ℕ) (s : PoolState) :
    (PoolReachable max true s → s.active + s.idle ≤ s.total ∧ s.total ≤ max) ∧
      (PoolReachable max false s → 0 < s.queue.length → s.active = max) := by
  constructor
  · intro h
    have hinv : PoolInv1 max s := by
      induction h with
      | refl => exact ⟨rfl, Nat.zero_le _⟩
      | tail hab hbc ih => exact poolInv1_step max true _ _ ih hbc
    exact ⟨le_of_eq hinv.1, hinv.2⟩
  · intro h
    have hinv : PoolInv max s := by
      induction h with
      | refl => exact poolInv_init max
      | tail hab hbc ih => exact poolInv_step max _ _ ih hbc
    intro hlen
    refine hinv.2.2 ?_
    intro hc
    rw [hc] at hlen
    simp at hlen

/-- Witness for the amended C4: with `maxConnections = 0` a waiter
enqueued at saturation gives a reachable state (under both semantics)
with a nonempty queue, where the count bounds hold and
`active = maxConnections`. -/
theorem claim_C4_pool_invariants_witness :
    (PoolReachable 0 true (PoolState.mk 0 0 0 [5] false) ∧
        PoolReachable 0 false (PoolState.mk 0 0 0 [5] false) ∧
        0 < (PoolState.mk 0 0 0 [5] false).queue.length) ∧
      ((PoolState.mk 0 0 0 [5] false).active + (PoolState.mk 0 0 0 [5] false).idle ≤
          (PoolState.mk 0 0 0 [5] false).total ∧
        (PoolState.mk 0 0 0 [5] false).total ≤ 0) ∧
      (PoolState.mk 0 0 0 [5] false).active = 0 :=
  ⟨⟨Relation.ReflTransGen.single
        (PoolStep.enqueue PoolState.init 5 (by decide) rfl (Nat.le_refl 0)),
      Relation.ReflTransGen.single
        (PoolStep.enqueue PoolState.init 5 (by decide) rfl (Nat.le_refl 0)),
      by decide⟩,
    (claim_C4_pool_invariants 0 (PoolState.mk 0 0 0 [5] false)).1
      (Relation.ReflTransGen.single
        (PoolStep.enqueue PoolState.init 5 (by decide) rfl (Nat.le_refl 0))),
    (claim_C4_pool_invariants 0 (PoolState.mk 0 0 0 [5] false)).2
      (Relation.ReflTransGen.single
        (PoolStep.enqueue PoolState.init 5 (by decide) rfl (Nat.le_refl 0)))
      (by decide)⟩

/-- **C6.** FIFO service of waiters: when waiters `w1` then `w2` enqueued
in that order (the queue is `w1 :: w2 :: rest`), a release hands the
connection to `w1`, the head of the queue — the connection stays marked
active (the active count is unchanged) — and a subsequent release serves
`w2`.  Enqueueing pushes at the tail, so `w1, w2` arriving in that order
on an empty queue produce exactly the queue `[w1, w2]`. -/
theorem claim_C6_release_fifo (s : PoolState) (w1 w2 : ℕ) (rest : List ℕ)
    (ha : 0 < s.active) (hq : s.queue = w1 :: w2 :: rest) :
    releaseServed s = some w1 ∧
      (releaseConnection s).queue = w2 :: rest ∧
      (releaseConnection s).active = s.active ∧
      releaseServed (releaseConnection s) = some w2 ∧
      ∀ t : PoolState, t.queue = [] →
        (enqueueWaiter (enqueueWaiter t w1) w2).queue = [w1, w2] := by
  have hrel : releaseConnection s = { s with queue := w2 :: rest } := by
    unfold releaseConnection
    rw [if_neg (by omega), hq]
  refine ⟨?_, ?_, ?_, ?_, ?_⟩
  · unfold releaseServed
    rw [if_neg (by omega), hq]
    rfl
  · rw [hrel]
  · rw [hrel]
  · rw [hrel]
    unfold releaseServed
    rw [if_neg (by dsimp only; omega)]
    rfl
  · intro t ht
    unfold enqueueWaiter
    dsimp only
    rw [ht]
    rfl

/-- Witness for C6 at a saturated one-connection pool with queued
waiters 101 and 102. -/
theorem claim_C6_release_fifo_witness :
    (0 < (PoolState.mk 1 1 0 [101, 102] false).active ∧
        (PoolState.mk 1 1 0 [101, 102] false).queue = 101 :: 102 :: []) ∧
      (releaseServed (PoolState.mk 1 1 0 [101, 102] false) = some 101 ∧
        (releaseConnection (PoolState.mk 1 1 0 [101, 102] false)).queue = 102 :: [] ∧
        (releaseConnection (PoolState.mk 1 1 0 [101, 102] false)).active =
          (PoolState.mk 1 1 0 [101, 102] false).active ∧
        releaseServed (releaseConnection (PoolState.mk 1 1 0 [101, 102] false)) =
          some 102 ∧
        ∀ t : PoolState, t.queue = [] →
          (enqueueWaiter (enqueueWaiter t 101) 102).queue = [101, 102]) :=
  ⟨⟨by decide, rfl⟩,
    claim_C6_release_fifo (PoolState.mk 1 1 0 [101, 102] false) 101 102 []
      (by decide) rfl⟩

/-! ## 7. LRU+TTL cache (`src/cache/lru-cache.ts`, `MemoryCache`)

`MemoryCache` wraps the `lru-cache` map: entries carry the wrapper's
`{value, timestamp, hitCount}` record plus the underlying map's TTL
start time; the entry list is kept in recency order (head = most
recent).  `get`/`getWithMetadata` count exactly one hit or miss per
call; no other operation touches the hit/miss counters (`resetStats`
zeroes them). -/

structure CEntry (V : Type) where
  value : V
  timestamp : ℕ
  hitCount : ℕ

structure Slot (V : Type) where
  entry : CEntry V
  start : ℕ

structure CacheCfg where
  maxSize : ℕ
  ttl : ℕ
  updateAgeOnGet : Bool := true

structure CacheState (V : Type) where
  entries : List (String × Slot V)
  hits : ℕ
  misses : ℕ
  sets : ℕ
  deletes : ℕ

def CacheState.init (V : Type) : CacheState V := ⟨[], 0, 0, 0, 0⟩

def lruLookup {V : Type} (entries : List (String × Slot V)) (k : String) :
    Option (Slot V) :=
  (entries.find? fun p => p.1 = k).map Prod.snd

def lruRemove {V : Type} (entries : List (String × Slot V)) (k : String) :
    List (String × Slot V) :=
  entries.filter fun p => decide (p.1 ≠ k)

/-- An entry is expired once `now − start > ttl`. -/
def slotExpired (cfg : CacheCfg) (now : ℕ) (s : Slot V) : Bool :=
  decide (cfg.ttl < now - s.start)

/-- `MemoryCache.get` / `getWithMetadata`: on a live entry, bump its hit
count, refresh recency (and the TTL start when `updateAgeOnGet`), and
count a hit; on an absent or expired key count a miss (the expired entry
is reclaimed lazily). -/
def cacheGet {V : Type} (cfg : CacheCfg) (now : ℕ) (s : CacheState V) (k : String) :
    Option V × CacheState V :=
  match lruLookup s.entries k with
  | none => (none, { s with misses := s.misses + 1 })
  | some slot =>
      if slotExpired cfg now slot then
        (none, { s with entries := lruRemove s.entries k, misses := s.misses + 1 })
      else
        (some slot.entry.value,
          { s with
            entries := (k, { entry := { slot.entry with hitCount := slot.entry.hitCount + 1 },
                             start := if cfg.updateAgeOnGet then now else slot.start }) ::
              lruRemove s.entries k
            hits := s.hits + 1 })

/-- `MemoryCache.set`: fresh `{value, timestamp := now, hitCount := 0}`
entry at the most-recent position; evicts the least-recently-used entry
when the size would exceed `maxSize`. -/
def cacheSet {V : Type} (cfg : CacheCfg) (now : ℕ) (s : CacheState V) (k : String)
    (v : V) : CacheState V :=
  if ((k, Slot.mk (CEntry.mk v now 0) now) :: lruRemove s.entries k).length > cfg.maxSize
  then
    { s with
      entries := ((k, Slot.mk (CEntry.mk v now 0) now) :: lruRemove s.entries k).dropLast
      sets := s.sets + 1 }
  else
    { s with
      entries := (k, Slot.mk (CEntry.mk v now 0) now) :: lruRemove s.entries k
      sets := s.sets + 1 }

/-- `MemoryCache.delete`: counts a delete only when the key was
present. -/
def cacheDelete {V : Type} (s : CacheState V) (k : String) : CacheState V :=
  if (lruLookup s.entries k).isSome then
    { s with entries := lruRemove s.entries k, deletes := s.deletes + 1 }
  else s

def cacheClear {V : Type} (s : CacheState V) : CacheState V := { s with entries := [] }

def cachePrune {V : Type} (cfg : CacheCfg) (now : ℕ) (s : CacheState V) : CacheState V :=
  { s with entries := s.entries.filter fun p => ! slotExpired cfg now p.2 }

def cacheResetStats {V : Type} (s : CacheState V) : CacheState V :=
  { s with hits := 0, misses := 0, sets := 0, deletes := 0 }

structure CacheStats where
  size : ℕ
  maxSize : ℕ
  hitRate : ℚ
  totalHits : ℕ
  totalMisses : ℕ
  totalSets : ℕ
  totalDeletes : ℕ

/-- `MemoryCache.getStats`. -/
def getStats {V : Type} (cfg : CacheCfg) (s : CacheState V) : CacheStats :=
  { size := s.entries.length
    maxSize := cfg.maxSize
    hitRate := if 0 < s.hits + s.misses then (s.hits : ℚ) / (s.hits + s.misses) else 0
    totalHits := s.hits
    totalMisses := s.misses
    totalSets := s.sets
    totalDeletes := s.deletes }

/-- The cache operations a caller can issue (those that touch state;
`peek`/`has`/`keys` and friends read without mutating and without
touching the statistics). -/
inductive CacheOp (V : Type)
  | set (k : String) (v : V)
  | get (k : String)
  | getWithMetadata (k : String)
  | del (k : String)
  | clear
  | prune
  | resetStats

/-- Whether an operation is a `get`/`getWithMetadata` request (the only
ones counted in the hit/miss statistics). -/
def CacheOp.isReadReq {V : Type} : CacheOp V → Bool
  | .get _ => true
  | .getWithMetadata _ => true
  | _ => false

def runCacheOp {V : Type} (cfg : CacheCfg) (s : CacheState V) :
    ℕ × CacheOp V → CacheState V
  | (now, .set k v) => cacheSet cfg now s k v
  | (now, .get k) => (cacheGet cfg now s k).2
  | (now, .getWithMetadata k) => (cacheGet cfg now s k).2
  | (_, .del k) => cacheDelete s k
  | (_, .clear) => cacheClear s
  | (now, .prune) => cachePrune cfg now s
  | (_, .resetStats) => cacheResetStats s

def runCacheOps {V : Type} (cfg : CacheCfg) (s : CacheState V)
    (ops : List (ℕ × CacheOp V)) : CacheState V :=
  ops.foldl (runCacheOp cfg) s

theorem runCacheOp_noRead {V : Type} (cfg : CacheCfg) (s : CacheState V)
    (p : ℕ × CacheOp V) (hp : p.2.isReadReq = false) (hh : s.hits = 0)
    (hm : s.misses = 0) :
    (runCacheOp cfg s p).hits = 0 ∧ (runCacheOp cfg s p).misses = 0 := by
  obtain ⟨now, op⟩ := p
  cases op <;> simp_all [runCacheOp, CacheOp.isReadReq, cacheSet, cacheDelete,
    cacheClear, cachePrune, cacheResetStats]
  · split_ifs <;> simp_all
  · split_ifs <;> simp_all

theorem runCacheOps_noRead {V : Type} (cfg : CacheCfg) :
    ∀ (ops : List (ℕ × CacheOp V)) (s : CacheState V),
      (∀ p ∈ ops, p.2.isReadReq = false) → s.hits = 0 → s.misses = 0 →
      (runCacheOps cfg s ops).hits = 0 ∧ (runCacheOps cfg s ops).misses = 0
  | [], s, _, hh, hm => ⟨hh, hm⟩
  | p :: ops, s, hops, hh, hm => by
      have hstep := runCacheOp_noRead cfg s p (hops p (List.mem_cons_self _ _)) hh hm
      exact runCacheOps_noRead cfg ops (runCacheOp cfg s p)
        (fun q hq => hops q (List.mem_cons_of_mem _ hq)) hstep.1 hstep.2

/-- **C9.** After any sequence of cache operations, the reported
`hitRate` equals `totalHits / (totalHits + totalMisses)` (exactly, in
rational arithmetic; both sides are `0` when the denominator is), and
when the sequence contains no `get`/`getWithMetadata` request the rate
is `0`. -/
theorem claim_C9_hitRate {V : Type} (cfg : CacheCfg) (ops : List (ℕ × CacheOp V)) :
    (getStats cfg (runCacheOps cfg (CacheState.init V) ops)).hitRate =
      ((getStats cfg (runCacheOps cfg (CacheState.init V) ops)).totalHits : ℚ) /
        (((getStats cfg (runCacheOps cfg (CacheState.init V) ops)).totalHits : ℚ) +
          ((getStats cfg (runCacheOps cfg (CacheState.init V) ops)).totalMisses : ℚ)) ∧
      ((∀ p ∈ ops, p.2.isReadReq = false) →
        (getStats cfg (runCacheOps cfg (CacheState.init V) ops)).hitRate = 0) := by
  constructor
  · unfold getStats
    dsimp only
    split_ifs with h
    · rfl
    · push_cast at h ⊢
      have hh : (runCacheOps cfg (CacheState.init V) ops).hits = 0 := by omega
      rw [hh]
      simp
  · intro hops
    obtain ⟨hh, hm⟩ := runCacheOps_noRead cfg ops (CacheState.init V) hops rfl rfl
    unfold getStats
    dsimp only
    rw [hh, hm]
    simp

/-- Witness for C9: a set followed by a delete makes no read request, so
the reported hit rate is 0 and equals the 0/0 rational quotient. -/
theorem claim_C9_hitRate_witness :
    (∀ p ∈ [((0 : ℕ), CacheOp.set "a" (1 : ℕ)), (1, CacheOp.del "a")],
        (p.2).isReadReq = false) ∧
      ((getStats ⟨10, 1000, true⟩ (runCacheOps ⟨10, 1000, true⟩ (CacheState.init ℕ)
          [(0, CacheOp.set "a" 1), (1, CacheOp.del "a")])).hitRate =
        ((getStats ⟨10, 1000, true⟩ (runCacheOps ⟨10, 1000, true⟩ (CacheState.init ℕ)
            [(0, CacheOp.set "a" 1), (1, CacheOp.del "a")])).totalHits : ℚ) /
          (((getStats ⟨10, 1000, true⟩ (runCacheOps ⟨10, 1000, true⟩ (CacheState.init ℕ)
              [(0, CacheOp.set "a" 1), (1, CacheOp.del "a")])).totalHits : ℚ) +
            ((getStats ⟨10, 1000, true⟩ (runCacheOps ⟨10, 1000, true⟩ (CacheState.init ℕ)
              [(0, CacheOp.set "a" 1), (1, CacheOp.del "a")])).totalMisses : ℚ)) ∧
        (getStats ⟨10, 1000, true⟩ (runCacheOps ⟨10, 1000, true⟩ (CacheState.init ℕ)
          [(0, CacheOp.set "a" 1), (1, CacheOp.del "a")])).hitRate = 0) := by
  have h := @claim_C9_hitRate ℕ ⟨10, 1000, true⟩
    [(0, CacheOp.set "a" 1), (1, CacheOp.del "a")]
  exact ⟨by decide, h.1, h.2 (by decide)⟩

/-! ## 8. Memory service facade (`src/services/memory-service.ts`)

The facade composes storage, vector index and cache.  For claim C10 the
mutating operations are modelled end to end over `DB × CacheState`: each
one performs its storage/index work and then its cache writes exactly as
the source does (`rule:{id}`, `project_doc:{id}`, `ref:{id}`,
`ref:name:{name}`, and for `batchStoreEmbeddings` the deletions of
`{table minus its last character}:{id}`).  An exception thrown before a
cache write leaves the cache untouched, as in the source. -/

structure PDoc where
  id : String
  project_id : String
  title : String
  content : String
  file_path : Option String
  tags : List String
  metadata : Option String
  embedding : Option (List ℚ)
  created_at : ℕ
  updated_at : ℕ

structure RefRec where
  id : String
  name : String
  content : String
  channel_id : Option String
  metadata : Option String
  embedding : Option (List ℚ)
  created_at : ℕ
  updated_at : ℕ

def PDoc.toNewRow (d : PDoc) (now : ℕ) : DocRow :=
  { id := d.id, project_id := d.project_id, title := d.title, content := d.content,
    file_path := d.file_path, embedding := none, tags := serializeTags d.tags,
    metadata := d.metadata, created_at := now, updated_at := now }

def RefRec.toNewRow (r : RefRec) (now : ℕ) : RefRow :=
  { id := r.id, name := r.name, content := r.content, embedding := none,
    channel_id := r.channel_id, metadata := r.metadata,
    created_at := now, updated_at := now }

/-- `ProjectDocStorage.create`. -/
def ProjectDocStorage.create (db : DB) (now : ℕ) (d : PDoc) : DB × PDoc :=
  ({ db with projectDocs := db.projectDocs ++ [d.toNewRow now] },
   { d with created_at := now, updated_at := now })

/-- `RefStorage.create`. -/
def RefStorage.create (db : DB) (now : ℕ) (r : RefRec) : DB × RefRec :=
  ({ db with refs := db.refs ++ [r.toNewRow now] },
   { r with created_at := now, updated_at := now })

/-- `RuleStorage.delete`: `DELETE FROM rules WHERE id = ?`, reporting
whether a row was removed. -/
def RuleStorage.delete (db : DB) (id : String) : DB × Bool :=
  ({ db with rules := db.rules.filter fun row => decide (row.id ≠ id) },
   db.rules.any fun row => row.id = id)

/-- The values the facade cache stores, one variant per key namespace. -/
inductive CVal
  | ruleV (r : Rule)
  | docV (d : PDoc)
  | refV (r : RefRec)
  | searchV (rs : List SearchResult)

/-- `MemoryService.createRule`: insert the row, store the embedding when
provided (a failure there throws before any cache write), then cache the
created record under `rule:{id}`. -/
def MemoryService.createRule (dims : ℕ) (cfg : CacheCfg) (now : ℕ) (db : DB)
    (c : CacheState CVal) (r : Rule) : DB × CacheState CVal × Option MemErr :=
  match r.embedding with
  | some emb =>
      match storeEmbedding dims (RuleStorage.create db now r).1 "rules" r.id emb with
      | .error e => ((RuleStorage.create db now r).1, c, some e)
      | .ok db2 =>
          (db2, cacheSet cfg now c ("rule:" ++ r.id)
            (.ruleV (RuleStorage.create db now r).2), none)
  | none =>
      ((RuleStorage.create db now r).1,
        cacheSet cfg now c ("rule:" ++ r.id) (.ruleV (RuleStorage.create db now r).2),
        none)

/-- `MemoryService.updateRule`: on a successful row update, store the
embedding when the partial provides one (a failure there throws before
any cache write), then overwrite the `rule:{id}` cache entry. -/
def MemoryService.updateRule (dims : ℕ) (cfg : CacheCfg) (now : ℕ) (db : DB)
    (c : CacheState CVal) (id : String) (u : RuleUpdate) :
    DB × CacheState CVal × Option MemErr :=
  match RuleStorage.update db now id u with
  | none => (db, c, none)
  | some (db1, updated) =>
      match u.embedding with
      | some emb =>
          match storeEmbedding dims db1 "rules" id emb with
          | .error e => (db1, c, some e)
          | .ok db2 =>
              (db2, cacheSet cfg now c ("rule:" ++ id) (.ruleV updated), none)
      | none => (db1, cacheSet cfg now c ("rule:" ++ id) (.ruleV updated), none)

/-- `MemoryService.deleteRule`: evict `rule:{id}` only when a row was
deleted. -/
def MemoryService.deleteRule (db : DB) (c : CacheState CVal) (id : String) :
    DB × CacheState CVal × Option MemErr :=
  if (RuleStorage.delete db id).2 then
    ((RuleStorage.delete db id).1, cacheDelete c ("rule:" ++ id), none)
  else ((RuleStorage.delete db id).1, c, none)

/-- `MemoryService.createProjectDoc`. -/
def MemoryService.createProjectDoc (dims : ℕ) (cfg : CacheCfg) (now : ℕ) (db : DB)
    (c : CacheState CVal) (d : PDoc) : DB × CacheState CVal × Option MemErr :=
  match d.embedding with
  | some emb =>
      match storeEmbedding dims (ProjectDocStorage.create db now d).1 "project_docs"
          d.id emb with
      | .error e => ((ProjectDocStorage.create db now d).1, c, some e)
      | .ok db2 =>
          (db2, cacheSet cfg now c ("project_doc:" ++ d.id)
            (.docV (ProjectDocStorage.create db now d).2), none)
  | none =>
      ((ProjectDocStorage.create db now d).1,
        cacheSet cfg now c ("project_doc:" ++ d.id)
          (.docV (ProjectDocStorage.create db now d).2),
        none)

/-- `MemoryService.createRef`: caches under both `ref:{id}` and
`ref:name:{name}`. -/
def MemoryService.createRef (dims : ℕ) (cfg : CacheCfg) (now : ℕ) (db : DB)
    (c : CacheState CVal) (r : RefRec) : DB × CacheState CVal × Option MemErr :=
  match r.embedding with
  | some emb =>
      match storeEmbedding dims (RefStorage.create db now r).1 "refs" r.id emb with
      | .error e => ((RefStorage.create db now r).1, c, some e)
      | .ok db2 =>
          (db2,
            cacheSet cfg now
              (cacheSet cfg now c ("ref:" ++ r.id) (.refV (RefStorage.create db now r).2))
              ("ref:name:" ++ r.name) (.refV (RefStorage.create db now r).2),
            none)
  | none =>
      ((RefStorage.create db now r).1,
        cacheSet cfg now
          (cacheSet cfg now c ("ref:" ++ r.id) (.refV (RefStorage.create db now r).2))
          ("ref:name:" ++ r.name) (.refV (RefStorage.create db now r).2),
        none)

/-- `VectorIndex.batchStoreEmbeddings`: all updates in one transaction;
the first failure rolls the whole batch back. -/
def batchStoreEmbeddingsDB (dims : ℕ) : DB → List (String × String × List ℚ) →
    Except MemErr DB
  | db, [] => .ok db
  | db, (t, id, v) :: rest =>
      match storeEmbedding dims db t id v with
      | .error e => .error e
      | .ok db1 => batchStoreEmbeddingsDB dims db1 rest

/-- `MemoryService.batchStoreEmbeddings`: on success, evict the
`{table.slice(0, -1)}:{id}` cache entry of every pair touched; on
failure the transaction rolls back and the cache is untouched. -/
def MemoryService.batchStoreEmbeddings (dims : ℕ) (db : DB) (c : CacheState CVal)
    (docs : List (String × String × List ℚ)) : DB × CacheState CVal × Option MemErr :=
  match batchStoreEmbeddingsDB dims db docs with
  | .error e => (db, c, some e)
  | .ok db1 =>
      (db1, docs.foldl (fun cc d => cacheDelete cc (d.1.dropRight 1 ++ ":" ++ d.2.1)) c,
        none)

/-- The row-mutating facade operations of claim C10. -/
inductive MutOp
  | createRule (r : Rule)
  | updateRule (id : String) (u : RuleUpdate)
  | deleteRule (id : String)
  | createProjectDoc (d : PDoc)
  | createRef (r : RefRec)
  | batchStore (docs : List (String × String × List ℚ))

def applyMut (dims : ℕ) (cfg : CacheCfg) (now : ℕ) (db : DB) (c : CacheState CVal) :
    MutOp → DB × CacheState CVal × Option MemErr
  | .createRule r => MemoryService.createRule dims cfg now db c r
  | .updateRule id u => MemoryService.updateRule dims cfg now db c id u
  | .deleteRule id => MemoryService.deleteRule db c id
  | .createProjectDoc d => MemoryService.createProjectDoc dims cfg now db c d
  | .createRef r => MemoryService.createRef dims cfg now db c r
  | .batchStore docs => MemoryService.batchStoreEmbeddings dims db c docs

/-- The number of cache insertions an operation can perform (for the
no-eviction capacity bound). -/
def MutOp.setCount : MutOp → ℕ
  | .createRule _ => 1
  | .updateRule _ _ => 1
  | .deleteRule _ => 0
  | .createProjectDoc _ => 1
  | .createRef _ => 2
  | .batchStore _ => 0

theorem find?_filter_of_imp {α : Type} (l : List α) (p q : α → Bool)
    (h : ∀ x, p x = true → q x = true) : (l.filter q).find? p = l.find? p := by
  induction l with
  | nil => rfl
  | cons x xs ih =>
      by_cases hqx : q x = true
      · rw [List.filter_cons_of_pos hqx, List.find?_cons, List.find?_cons]
        cases hp : p x
        · exact ih
        · rfl
      · have hp : p x = false := by
          cases hpx : p x
          · rfl
          · exact absurd (h x hpx) hqx
        rw [List.filter_cons_of_neg (by simpa using hqx), List.find?_cons, hp]
        exact ih

theorem find?_lruRemove_ne {V : Type} (entries : List (String × Slot V))
    (k k' : String) (hne : k' ≠ k) :
    (lruRemove entries k).find? (fun p => decide (p.1 = k')) =
      entries.find? (fun p => decide (p.1 = k')) := by
  unfold lruRemove
  apply find?_filter_of_imp
  intro x hx
  simp only [decide_eq_true_eq] at hx ⊢
  exact fun hc => hne (hx.symm.trans hc)

theorem lruLookup_lruRemove_ne {V : Type} (entries : List (String × Slot V))
    (k k' : String) (hne : k' ≠ k) :
    lruLookup (lruRemove entries k) k' = lruLookup entries k' := by
  unfold lruLookup
  rw [find?_lruRemove_ne entries k k' hne]

theorem cacheSet_entries_length {V : Type} (cfg : CacheCfg) (now : ℕ)
    (s : CacheState V) (k : String) (v : V) :
    (cacheSet cfg now s k v).entries.length ≤ s.entries.length + 1 := by
  unfold cacheSet
  have hrem : (lruRemove s.entries k).length ≤ s.entries.length :=
    List.length_filter_le _ _
  split_ifs
  · dsimp only
    rw [List.length_dropLast]
    simp only [List.length_cons]
    omega
  · simp only [List.length_cons]
    omega

theorem lruLookup_cacheSet_ne {V : Type} (cfg : CacheCfg) (now : ℕ)
    (s : CacheState V) (k : String) (v : V) (k' : String) (hne : k' ≠ k)
    (hcap : s.entries.length + 1 ≤ cfg.maxSize) :
    lruLookup (cacheSet cfg now s k v).entries k' = lruLookup s.entries k' := by
  unfold cacheSet
  have hrem : (lruRemove s.entries k).length ≤ s.entries.length :=
    List.length_filter_le _ _
  rw [if_neg (by simp only [List.length_cons]; omega)]
  unfold lruLookup
  dsimp only
  rw [List.find?_cons]
  have hhead : (decide (((k, Slot.mk (CEntry.mk v now 0) now)).1 = k')) = false := by
    simp only [decide_eq_false_iff_not]
    exact fun hc => hne hc.symm
  rw [hhead]
  exact congrArg _ (find?_lruRemove_ne s.entries k k' hne)

theorem lruLookup_cacheDelete_ne {V : Type} (s : CacheState V) (k k' : String)
    (hne : k' ≠ k) :
    lruLookup (cacheDelete s k).entries k' = lruLookup s.entries k' := by
  unfold cacheDelete
  split_ifs
  · exact lruLookup_lruRemove_ne s.entries k k' hne
  · rfl

theorem append_ne_of_head_ne (a b c d : String) (x y : Char)
    (ha : a.data.head? = some x) (hb : b.data.head? = some y) (hxy : x ≠ y) :
    a ++ c ≠ b ++ d := by
  intro h
  have hd := congrArg String.data h
  rw [String.data_append, String.data_append] at hd
  have h1 : (a.data ++ c.data).head? = some x := by
    cases haa : a.data with
    | nil => rw [haa] at ha; exact Option.noConfusion ha
    | cons z zs =>
        rw [haa] at ha
        simpa using ha
  have h2 : (b.data ++ d.data).head? = some y := by
    cases hbb : b.data with
    | nil => rw [hbb] at hb; exact Option.noConfusion hb
    | cons z zs =>
        rw [hbb] at hb
        simpa using hb
  rw [hd, h2] at h1
  injection h1 with hyx
  exact hxy hyx.symm

theorem storeEmbedding_ok_table (dims : ℕ) (db : DB) (t id : String) (v : List ℚ)
    (db2 : DB) (h : storeEmbedding dims db t id v = .ok db2) :
    t = "rules" ∨ t = "project_docs" ∨ t = "refs" := by
  unfold storeEmbedding at h
  cases hvd : validateDimensions v dims with
  | error e => rw [hvd] at h; exact Except.noConfusion h
  | ok u =>
      rw [hvd] at h
      dsimp only at h
      unfold execUpdateEmbedding at h
      split_ifs at h with h1 h2 h3 h4
      · exact Or.inl h1
      · exact Or.inr (Or.inl h2)
      · exact Or.inr (Or.inr h3)

theorem batchStoreEmbeddingsDB_ok_tables (dims : ℕ) :
    ∀ (docs : List (String × String × List ℚ)) (db db1 : DB),
      batchStoreEmbeddingsDB dims db docs = .ok db1 →
      ∀ d ∈ docs, d.1 = "rules" ∨ d.1 = "project_docs" ∨ d.1 = "refs"
  | [], _, _, _, _, hd => absurd hd (List.not_mem_nil _)
  | (t, id, v) :: rest, db, db1, h, d, hd => by
      unfold batchStoreEmbeddingsDB at h
      cases hse : storeEmbedding dims db t id v with
      | error e => rw [hse] at h; exact Except.noConfusion h
      | ok dbx =>
          rw [hse] at h
          dsimp only at h
          rcases List.mem_cons.mp hd with rfl | hd2
          · exact storeEmbedding_ok_table dims db t id v dbx hse
          · exact batchStoreEmbeddingsDB_ok_tables dims rest dbx db1 h d hd2

theorem foldl_cacheDelete_preserves {V : Type} (k' : String) :
    ∀ (ds : List (String × String × List ℚ)) (c : CacheState V),
      (∀ d ∈ ds, d.1.dropRight 1 ++ ":" ++ d.2.1 ≠ k') →
      lruLookup ((ds.foldl (fun cc d =>
        cacheDelete cc (d.1.dropRight 1 ++ ":" ++ d.2.1)) c)).entries k' =
        lruLookup c.entries k'
  | [], c, _ => rfl
  | d :: ds, c, hne => by
      rw [List.foldl_cons]
      rw [foldl_cacheDelete_preserves k' ds _
        (fun e he => hne e (List.mem_cons_of_mem _ he))]
      exact lruLookup_cacheDelete_ne c _ k'
        fun hc => hne d (List.mem_cons_self _ _) hc.symm

/-- **C10.** No row-mutating facade operation (`createRule`,
`updateRule`, `deleteRule`, `createProjectDoc`, `createRef`,
`batchStoreEmbeddings`) deletes or overwrites any cache entry whose key
begins with `search:`; as long as the operation's own insertions do not
force an LRU eviction (the capacity bound) the entry at such a key —
value, timestamps and hit count — is exactly what it was before, so a
cached `semanticSearch` result remains returnable unchanged until it
expires or is evicted. -/
theorem claim_C10_mutations_preserve_search_cache
    (dims : ℕ) (cfg : CacheCfg) (now : ℕ) (db : DB) (c : CacheState CVal)
    (op : MutOp) (k : String) (hk : ∃ rest, k = "search:" ++ rest)
    (hcap : c.entries.length + op.setCount ≤ cfg.maxSize) :
    lruLookup (applyMut dims cfg now db c op).2.1.entries k =
      lruLookup c.entries k := by
  obtain ⟨rest, rfl⟩ := hk
  have hsearch : ("search:").data.head? = some (Char.ofNat 115) := rfl
  cases op with
  | createRule r =>
      simp only [MutOp.setCount] at hcap
      have hne : "search:" ++ rest ≠ "rule:" ++ r.id :=
        append_ne_of_head_ne _ _ _ _ _ _ hsearch rfl (by decide)
      unfold applyMut MemoryService.createRule
      dsimp only
      cases hemb : r.embedding with
      | none =>
          dsimp only
          exact lruLookup_cacheSet_ne cfg now c _ _ _ hne (by omega)
      | some emb =>
          dsimp only
          cases hse : storeEmbedding dims (RuleStorage.create db now r).1 "rules"
              r.id emb with
          | error e => dsimp only
          | ok db2 =>
              dsimp only
              exact lruLookup_cacheSet_ne cfg now c _ _ _ hne (by omega)
  | updateRule id u =>
      simp only [MutOp.setCount] at hcap
      have hne : "search:" ++ rest ≠ "rule:" ++ id :=
        append_ne_of_head_ne _ _ _ _ _ _ hsearch rfl (by decide)
      unfold applyMut MemoryService.updateRule
      dsimp only
      cases hupd : RuleStorage.update db now id u with
      | none => dsimp only
      | some p =>
          obtain ⟨db1, updated⟩ := p
          dsimp only
          cases hemb : u.embedding with
          | none =>
              dsimp only
              exact lruLookup_cacheSet_ne cfg now c _ _ _ hne (by omega)
          | some emb =>
              dsimp only
              cases hse : storeEmbedding dims db1 "rules" id emb with
              | error e => dsimp only
              | ok db2 =>
                  dsimp only
                  exact lruLookup_cacheSet_ne cfg now c _ _ _ hne (by omega)
  | deleteRule id =>
      have hne : "search:" ++ rest ≠ "rule:" ++ id :=
        append_ne_of_head_ne _ _ _ _ _ _ hsearch rfl (by decide)
      unfold applyMut MemoryService.deleteRule
      dsimp only
      cases hdel : (RuleStorage.delete db id).2 with
      | true =>
          rw [if_pos rfl]
          exact lruLookup_cacheDelete_ne c _ _ hne
      | false =>
          rw [if_neg (by simp)]
  | createProjectDoc d =>
      simp only [MutOp.setCount] at hcap
      have hne : "search:" ++ rest ≠ "project_doc:" ++ d.id :=
        append_ne_of_head_ne _ _ _ _ _ _ hsearch rfl (by decide)
      unfold applyMut MemoryService.createProjectDoc
      dsimp only
      cases hemb : d.embedding with
      | none =>
          dsimp only
          exact lruLookup_cacheSet_ne cfg now c _ _ _ hne (by omega)
      | some emb =>
          dsimp only
          cases hse : storeEmbedding dims (ProjectDocStorage.create db now d).1
              "project_docs" d.id emb with
          | error e => dsimp only
          | ok db2 =>
              dsimp only
              exact lruLookup_cacheSet_ne cfg now c _ _ _ hne (by omega)
  | createRef r =>
      simp only [MutOp.setCount] at hcap
      have hne1 : "search:" ++ rest ≠ "ref:" ++ r.id :=
        append_ne_of_head_ne _ _ _ _ _ _ hsearch rfl (by decide)
      have hne2 : "search:" ++ rest ≠ "ref:name:" ++ r.name :=
        append_ne_of_head_ne _ _ _ _ _ _ hsearch rfl (by decide)
      have hpres : ∀ v1 v2 : CVal,
          lruLookup (cacheSet cfg now
            (cacheSet cfg now c ("ref:" ++ r.id) v1) ("ref:name:" ++ r.name) v2).entries
            ("search:" ++ rest) = lruLookup c.entries ("search:" ++ rest) := by
        intro v1 v2
        rw [lruLookup_cacheSet_ne cfg now _ _ _ _ hne2 (by
          have := cacheSet_entries_length cfg now c ("ref:" ++ r.id) v1
          omega)]
        exact lruLookup_cacheSet_ne cfg now c _ _ _ hne1 (by omega)
      unfold applyMut MemoryService.createRef
      dsimp only
      cases hemb : r.embedding with
      | none =>
          dsimp only
          exact hpres _ _
      | some emb =>
          dsimp only
          cases hse : storeEmbedding dims (RefStorage.create db now r).1 "refs"
              r.id emb with
          | error e => dsimp only
          | ok db2 =>
              dsimp only
              exact hpres _ _
  | batchStore docs =>
      unfold applyMut MemoryService.batchStoreEmbeddings
      dsimp only
      cases hb : batchStoreEmbeddingsDB dims db docs with
      | error e => dsimp only
      | ok db1 =>
          dsimp only
          apply foldl_cacheDelete_preserves
          intro d hd
          rcases batchStoreEmbeddingsDB_ok_tables dims docs db db1 hb d hd
            with h | h | h
          · rw [h, show ("rules".dropRight 1 ++ ":") = "rule:" from by decide]
            exact (append_ne_of_head_ne _ _ _ _ _ _ rfl hsearch (by decide))
          · rw [h, show ("project_docs".dropRight 1 ++ ":") = "project_doc:"
              from by decide]
            exact (append_ne_of_head_ne _ _ _ _ _ _ rfl hsearch (by decide))
          · rw [h, show ("refs".dropRight 1 ++ ":") = "ref:" from by decide]
            exact (append_ne_of_head_ne _ _ _ _ _ _ rfl hsearch (by decide))

/-- A facade cache holding one cached search result list under a
`search:`-prefixed key. -/
def c10cache : CacheState CVal :=
  ⟨[("search:abc", ⟨⟨CVal.searchV [], 0, 0⟩, 0⟩)], 0, 0, 0, 0⟩

/-- Witness for C10: `createRule` against a cache holding a cached
search result leaves the `search:abc` entry untouched. -/
theorem claim_C10_mutations_preserve_search_cache_witness :
    ((∃ rest, "search:abc" = "search:" ++ rest) ∧
        c10cache.entries.length + (MutOp.createRule c2rule).setCount ≤
          (CacheCfg.mk 10 1000 true).maxSize) ∧
      lruLookup (applyMut 2 ⟨10, 1000, true⟩ 7 c2db c10cache
          (MutOp.createRule c2rule)).2.1.entries "search:abc" =
        lruLookup c10cache.entries "search:abc" :=
  ⟨⟨⟨"abc", by decide⟩, by decide⟩,
    claim_C10_mutations_preserve_search_cache 2 ⟨10, 1000, true⟩ 7 c2db c10cache
      (MutOp.createRule c2rule) "search:abc" ⟨"abc", by decide⟩ (by decide)⟩
